import Mathlib

/-!
Verification development for the offer-creation repository.

Shallow embedding conventions used throughout this file:
* Python floats are modelled as exact rationals; the arithmetic performed by
  the code on realistic inputs (small decimal literals, products and
  quotients) is exact, so no rounding model is needed for the properties
  proved here.
* Python None / absent dict keys are merged into a single absent value,
  because every read in the embedded code goes through dict.get, which
  returns None for both.
* Fallible code is modelled with Except; file contents are modelled as
  explicit values threaded through the functions that read and write them.
-/

namespace PackagingMath

/-- Value stored in a CanonicalRow cell (domain/canonical.py): absent,
a Python int, a Python float (modelled as an exact rational), a string, or
a bool. -/
inductive PVal where
  | none
  | int (n : Int)
  | float (q : ℚ)
  | str (s : String)
  | bool (b : Bool)
deriving DecidableEq, Repr

/-- Python whitespace characters recognised by str.strip. -/
def isPySpace (c : Char) : Bool :=
  c = ' ' || c = '\t' || c = '\n' || c = '\r' || c = '\x0b' || c = '\x0c'

/-- Python str.strip: remove leading and trailing whitespace. -/
def pyStrip (s : String) : String :=
  String.mk (((s.data.dropWhile isPySpace).reverse.dropWhile isPySpace).reverse)

/-- Numeric value of a list of decimal digit characters. -/
def digitsVal (ds : List Char) : Nat :=
  ds.foldl (fun acc c => acc * 10 + (c.toNat - 48)) 0

/-- Parse an unsigned decimal literal (digits, optional dot, digits; at
least one digit overall), the shapes of numeric strings the repository
feeds to Python float(). Exponents, inf and nan are not modelled. -/
def parseUnsignedDec (cs : List Char) : Option ℚ :=
  let intPart := cs.takeWhile Char.isDigit
  let rest := cs.dropWhile Char.isDigit
  match rest with
  | [] => if intPart = [] then Option.none else some ((digitsVal intPart : ℚ))
  | c :: rest2 =>
    if c = '.' then
      let frac := rest2.takeWhile Char.isDigit
      let rest3 := rest2.dropWhile Char.isDigit
      if rest3 = [] ∧ (intPart ≠ [] ∨ frac ≠ []) then
        some ((digitsVal intPart : ℚ) + (digitsVal frac : ℚ) / ((10 : ℚ) ^ frac.length))
      else Option.none
    else Option.none

/-- Python float(s) on a plain decimal string: strip whitespace, optional
sign, decimal literal. Returns none where float() would raise ValueError. -/
def pyFloat (s : String) : Option ℚ :=
  match (pyStrip s).data with
  | '-' :: rest => (parseUnsignedDec rest).map (fun q => -q)
  | '+' :: rest => parseUnsignedDec rest
  | cs => parseUnsignedDec cs

/-- Embeds fields/packaging_math.py _to_number: int and float pass through
as floats, bool and absent give none, strings are stripped, commas become
periods, and the result is parsed with float(), none on failure. -/
def to_number (v : PVal) : Option ℚ :=
  match v with
  | .none => Option.none
  | .bool _ => Option.none
  | .int n => some ((n : ℚ))
  | .float q => some q
  | .str s =>
    let t := pyStrip s
    if t = "" then Option.none
    else pyFloat (String.map (fun c => if c = ',' then '.' else c) t)

/-- Embeds fields/packaging_math.py _is_valid_positive_number applied to an
already converted value: the conversion succeeded and the value is
strictly positive. For absent the default 0 makes the test false, exactly
as the source returns False. -/
def is_valid_positive_number (x : Option ℚ) : Prop := 0 < x.getD 0

instance (x : Option ℚ) : Decidable (is_valid_positive_number x) := by
  unfold is_valid_positive_number; infer_instance

/-- The canonical row fields read or written by fields/packaging_math.py
(domain/canonical.py CanonicalRow, restricted to the packaging and
availability keys; the other keys are never touched by this module). -/
structure CanonicalRow where
  piece_per_case : PVal
  case_per_pallet : PVal
  pieces_per_pallet : PVal
  availability_pieces : PVal
  availability_cartons : PVal
  availability_pallets : PVal
deriving DecidableEq, Repr

/-- First guarded write of complete_packaging_triad (A and B give C): fill
pieces_per_pallet with a times b when a and b are valid positive and the
target is currently absent. -/
def triadFillC (a b : Option ℚ) (r : CanonicalRow) : CanonicalRow :=
  if is_valid_positive_number a ∧ is_valid_positive_number b ∧
      r.pieces_per_pallet = PVal.none then
    { r with pieces_per_pallet := PVal.float (a.getD 0 * b.getD 0) }
  else r

/-- Second guarded write of complete_packaging_triad (A and C give B). -/
def triadFillB (a c : Option ℚ) (r : CanonicalRow) : CanonicalRow :=
  if is_valid_positive_number a ∧ is_valid_positive_number c ∧
      r.case_per_pallet = PVal.none ∧ a.getD 0 ≠ 0 then
    { r with case_per_pallet := PVal.float (c.getD 0 / a.getD 0) }
  else r

/-- Third guarded write of complete_packaging_triad (B and C give A). -/
def triadFillA (b c : Option ℚ) (r : CanonicalRow) : CanonicalRow :=
  if is_valid_positive_number b ∧ is_valid_positive_number c ∧
      r.piece_per_case = PVal.none ∧ b.getD 0 ≠ 0 then
    { r with piece_per_case := PVal.float (c.getD 0 / b.getD 0) }
  else r

/-- Embeds fields/packaging_math.py complete_packaging_triad, lines 48-83:
snapshot conversions a, b, c of the three packaging fields, then three
sequential conditional writes, each guarded by the target field being
absent at the time of the write. -/
def complete_packaging_triad (row : CanonicalRow) : CanonicalRow :=
  let a := to_number row.piece_per_case
  let b := to_number row.case_per_pallet
  let c := to_number row.pieces_per_pallet
  triadFillA b c (triadFillB a c (triadFillC a b row))

/-- Forward write of complete_availability for cartons: cartons becomes
pieces divided by piece_per_case when pieces is a valid positive number
and the cartons cell is currently absent. Used once in the forward block
and once verbatim in the cross-fill block of the source. -/
def availFillCartons (pieces ppc : Option ℚ) (r : CanonicalRow) : CanonicalRow :=
  if is_valid_positive_number pieces ∧ r.availability_cartons = PVal.none ∧
      is_valid_positive_number ppc ∧ ppc.getD 0 ≠ 0 then
    { r with availability_cartons := PVal.float (pieces.getD 0 / ppc.getD 0) }
  else r

/-- Forward write of complete_availability for pallets. -/
def availFillPallets (pieces ppp : Option ℚ) (r : CanonicalRow) : CanonicalRow :=
  if is_valid_positive_number pieces ∧ r.availability_pallets = PVal.none ∧
      is_valid_positive_number ppp ∧ ppp.getD 0 ≠ 0 then
    { r with availability_pallets := PVal.float (pieces.getD 0 / ppp.getD 0) }
  else r

/-- Reverse block of complete_availability: only when the pieces cell is
absent, derive it from cartons times piece_per_case, or, when that pair is
not available, from pallets times pieces_per_pallet (Python if and elif). -/
def availReverse (cartons pallets ppc ppp : Option ℚ) (r : CanonicalRow) : CanonicalRow :=
  if r.availability_pieces = PVal.none then
    if is_valid_positive_number cartons ∧ is_valid_positive_number ppc then
      { r with availability_pieces := PVal.float (cartons.getD 0 * ppc.getD 0) }
    else if is_valid_positive_number pallets ∧ is_valid_positive_number ppp then
      { r with availability_pieces := PVal.float (pallets.getD 0 * ppp.getD 0) }
    else r
  else r

/-- Embeds fields/packaging_math.py complete_availability, lines 86-134:
forward fill of cartons and pallets from pieces, reverse derivation of
pieces from cartons (preferred) or pallets when pieces is absent, then one
cross-fill of cartons and pallets from the now known pieces (the source
repeats the two forward writes verbatim with the refreshed pieces value).
All writes are guarded by the target being absent at write time. -/
def complete_availability (row : CanonicalRow) : CanonicalRow :=
  let pieces := to_number row.availability_pieces
  let cartons := to_number row.availability_cartons
  let pallets := to_number row.availability_pallets
  let ppc := to_number row.piece_per_case
  let ppp := to_number row.pieces_per_pallet
  let row2 := availFillPallets pieces ppp (availFillCartons pieces ppc row)
  let row4 := availReverse cartons pallets ppc ppp row2
  let pieces2 := to_number row4.availability_pieces
  availFillPallets pieces2 ppp (availFillCartons pieces2 ppc row4)

/-- Embeds fields/packaging_math.py apply_packaging_math, lines 137-148:
iterate triad completion then availability completion, up to
max_iterations rounds, stopping as soon as a round leaves the row
unchanged. -/
def applyPackagingMathGo : Nat → CanonicalRow → CanonicalRow
  | 0, r => r
  | n + 1, r =>
    let r2 := complete_availability (complete_packaging_triad r)
    if r2 = r then r2 else applyPackagingMathGo n r2

/-- Embeds apply_packaging_math with its default of 3 iterations. -/
def apply_packaging_math (row : CanonicalRow) (maxIterations : Nat := 3) : CanonicalRow :=
  applyPackagingMathGo maxIterations row


/-- Helper projection lemma: each guarded write touches exactly one field. -/
@[simp] theorem triadFillC_ppc (a b : Option ℚ) (r : CanonicalRow) :
    (triadFillC a b r).piece_per_case = r.piece_per_case := by
  unfold triadFillC; split_ifs <;> rfl

@[simp] theorem triadFillC_cpp (a b : Option ℚ) (r : CanonicalRow) :
    (triadFillC a b r).case_per_pallet = r.case_per_pallet := by
  unfold triadFillC; split_ifs <;> rfl

@[simp] theorem triadFillC_avp (a b : Option ℚ) (r : CanonicalRow) :
    (triadFillC a b r).availability_pieces = r.availability_pieces := by
  unfold triadFillC; split_ifs <;> rfl

@[simp] theorem triadFillC_avc (a b : Option ℚ) (r : CanonicalRow) :
    (triadFillC a b r).availability_cartons = r.availability_cartons := by
  unfold triadFillC; split_ifs <;> rfl

@[simp] theorem triadFillC_avl (a b : Option ℚ) (r : CanonicalRow) :
    (triadFillC a b r).availability_pallets = r.availability_pallets := by
  unfold triadFillC; split_ifs <;> rfl

@[simp] theorem triadFillB_ppc (a c : Option ℚ) (r : CanonicalRow) :
    (triadFillB a c r).piece_per_case = r.piece_per_case := by
  unfold triadFillB; split_ifs <;> rfl

@[simp] theorem triadFillB_ppp (a c : Option ℚ) (r : CanonicalRow) :
    (triadFillB a c r).pieces_per_pallet = r.pieces_per_pallet := by
  unfold triadFillB; split_ifs <;> rfl

@[simp] theorem triadFillB_avp (a c : Option ℚ) (r : CanonicalRow) :
    (triadFillB a c r).availability_pieces = r.availability_pieces := by
  unfold triadFillB; split_ifs <;> rfl

@[simp] theorem triadFillB_avc (a c : Option ℚ) (r : CanonicalRow) :
    (triadFillB a c r).availability_cartons = r.availability_cartons := by
  unfold triadFillB; split_ifs <;> rfl

@[simp] theorem triadFillB_avl (a c : Option ℚ) (r : CanonicalRow) :
    (triadFillB a c r).availability_pallets = r.availability_pallets := by
  unfold triadFillB; split_ifs <;> rfl

@[simp] theorem triadFillA_cpp (b c : Option ℚ) (r : CanonicalRow) :
    (triadFillA b c r).case_per_pallet = r.case_per_pallet := by
  unfold triadFillA; split_ifs <;> rfl

@[simp] theorem triadFillA_ppp (b c : Option ℚ) (r : CanonicalRow) :
    (triadFillA b c r).pieces_per_pallet = r.pieces_per_pallet := by
  unfold triadFillA; split_ifs <;> rfl

@[simp] theorem triadFillA_avp (b c : Option ℚ) (r : CanonicalRow) :
    (triadFillA b c r).availability_pieces = r.availability_pieces := by
  unfold triadFillA; split_ifs <;> rfl

@[simp] theorem triadFillA_avc (b c : Option ℚ) (r : CanonicalRow) :
    (triadFillA b c r).availability_cartons = r.availability_cartons := by
  unfold triadFillA; split_ifs <;> rfl

@[simp] theorem triadFillA_avl (b c : Option ℚ) (r : CanonicalRow) :
    (triadFillA b c r).availability_pallets = r.availability_pallets := by
  unfold triadFillA; split_ifs <;> rfl

@[simp] theorem availFillCartons_ppc (p q : Option ℚ) (r : CanonicalRow) :
    (availFillCartons p q r).piece_per_case = r.piece_per_case := by
  unfold availFillCartons; split_ifs <;> rfl

@[simp] theorem availFillCartons_cpp (p q : Option ℚ) (r : CanonicalRow) :
    (availFillCartons p q r).case_per_pallet = r.case_per_pallet := by
  unfold availFillCartons; split_ifs <;> rfl

@[simp] theorem availFillCartons_ppp (p q : Option ℚ) (r : CanonicalRow) :
    (availFillCartons p q r).pieces_per_pallet = r.pieces_per_pallet := by
  unfold availFillCartons; split_ifs <;> rfl

@[simp] theorem availFillCartons_avp (p q : Option ℚ) (r : CanonicalRow) :
    (availFillCartons p q r).availability_pieces = r.availability_pieces := by
  unfold availFillCartons; split_ifs <;> rfl

@[simp] theorem availFillCartons_avl (p q : Option ℚ) (r : CanonicalRow) :
    (availFillCartons p q r).availability_pallets = r.availability_pallets := by
  unfold availFillCartons; split_ifs <;> rfl

@[simp] theorem availFillPallets_ppc (p q : Option ℚ) (r : CanonicalRow) :
    (availFillPallets p q r).piece_per_case = r.piece_per_case := by
  unfold availFillPallets; split_ifs <;> rfl

@[simp] theorem availFillPallets_cpp (p q : Option ℚ) (r : CanonicalRow) :
    (availFillPallets p q r).case_per_pallet = r.case_per_pallet := by
  unfold availFillPallets; split_ifs <;> rfl

@[simp] theorem availFillPallets_ppp (p q : Option ℚ) (r : CanonicalRow) :
    (availFillPallets p q r).pieces_per_pallet = r.pieces_per_pallet := by
  unfold availFillPallets; split_ifs <;> rfl

@[simp] theorem availFillPallets_avp (p q : Option ℚ) (r : CanonicalRow) :
    (availFillPallets p q r).availability_pieces = r.availability_pieces := by
  unfold availFillPallets; split_ifs <;> rfl

@[simp] theorem availFillPallets_avc (p q : Option ℚ) (r : CanonicalRow) :
    (availFillPallets p q r).availability_cartons = r.availability_cartons := by
  unfold availFillPallets; split_ifs <;> rfl

@[simp] theorem availReverse_ppc (ca pa p q : Option ℚ) (r : CanonicalRow) :
    (availReverse ca pa p q r).piece_per_case = r.piece_per_case := by
  unfold availReverse; split_ifs <;> rfl

@[simp] theorem availReverse_cpp (ca pa p q : Option ℚ) (r : CanonicalRow) :
    (availReverse ca pa p q r).case_per_pallet = r.case_per_pallet := by
  unfold availReverse; split_ifs <;> rfl

@[simp] theorem availReverse_ppp (ca pa p q : Option ℚ) (r : CanonicalRow) :
    (availReverse ca pa p q r).pieces_per_pallet = r.pieces_per_pallet := by
  unfold availReverse; split_ifs <;> rfl

@[simp] theorem availReverse_avc (ca pa p q : Option ℚ) (r : CanonicalRow) :
    (availReverse ca pa p q r).availability_cartons = r.availability_cartons := by
  unfold availReverse; split_ifs <;> rfl

@[simp] theorem availReverse_avl (ca pa p q : Option ℚ) (r : CanonicalRow) :
    (availReverse ca pa p q r).availability_pallets = r.availability_pallets := by
  unfold availReverse; split_ifs <;> rfl

theorem availFillCartons_of_ne (p q : Option ℚ) (r : CanonicalRow)
    (h : r.availability_cartons ≠ PVal.none) : availFillCartons p q r = r := by
  unfold availFillCartons; split_ifs with hc
  · exact absurd hc.2.1 h
  · rfl

theorem availFillPallets_of_ne (p q : Option ℚ) (r : CanonicalRow)
    (h : r.availability_pallets ≠ PVal.none) : availFillPallets p q r = r := by
  unfold availFillPallets; split_ifs with hc
  · exact absurd hc.2.1 h
  · rfl

theorem availReverse_of_ne (ca pa p q : Option ℚ) (r : CanonicalRow)
    (h : r.availability_pieces ≠ PVal.none) : availReverse ca pa p q r = r := by
  unfold availReverse; split_ifs with hc h1 h2 <;> first | rfl | exact absurd hc h

theorem triadFillC_of_ne (a b : Option ℚ) (r : CanonicalRow)
    (h : r.pieces_per_pallet ≠ PVal.none) : triadFillC a b r = r := by
  unfold triadFillC; split_ifs with hc
  · exact absurd hc.2.2 h
  · rfl

theorem triadFillB_of_ne (a c : Option ℚ) (r : CanonicalRow)
    (h : r.case_per_pallet ≠ PVal.none) : triadFillB a c r = r := by
  unfold triadFillB; split_ifs with hc
  · exact absurd hc.2.2.1 h
  · rfl

theorem triadFillA_of_ne (b c : Option ℚ) (r : CanonicalRow)
    (h : r.piece_per_case ≠ PVal.none) : triadFillA b c r = r := by
  unfold triadFillA; split_ifs with hc
  · exact absurd hc.2.2.1 h
  · rfl

theorem availFillCartons_of_invalid (p q : Option ℚ) (r : CanonicalRow)
    (h : ¬is_valid_positive_number p) : availFillCartons p q r = r := by
  unfold availFillCartons; split_ifs with hc
  · exact absurd hc.1 h
  · rfl

theorem availFillPallets_of_invalid (p q : Option ℚ) (r : CanonicalRow)
    (h : ¬is_valid_positive_number p) : availFillPallets p q r = r := by
  unfold availFillPallets; split_ifs with hc
  · exact absurd hc.1 h
  · rfl


theorem availFillCartons_avc_of_ne (p q : Option ℚ) (r : CanonicalRow)
    (h : r.availability_cartons ≠ PVal.none) :
    (availFillCartons p q r).availability_cartons = r.availability_cartons := by
  rw [availFillCartons_of_ne _ _ _ h]

theorem availFillPallets_avl_of_ne (p q : Option ℚ) (r : CanonicalRow)
    (h : r.availability_pallets ≠ PVal.none) :
    (availFillPallets p q r).availability_pallets = r.availability_pallets := by
  rw [availFillPallets_of_ne _ _ _ h]


/-- C2: for every canonical row in which exactly two of piece_per_case,
case_per_pallet, pieces_per_pallet are valid positive numbers and the
third is absent, complete_packaging_triad fills the absent one with the
exact product or quotient (floats allowed, no rounding); and for every row
in which all three are present it changes none of them, even when the
supplied values are mutually inconsistent. -/
theorem C2_complete_packaging_triad (row : CanonicalRow) :
    (∀ a b : ℚ, to_number row.piece_per_case = some a → 0 < a →
      to_number row.case_per_pallet = some b → 0 < b →
      row.pieces_per_pallet = PVal.none →
      complete_packaging_triad row =
        { row with pieces_per_pallet := PVal.float (a * b) }) ∧
    (∀ a c : ℚ, to_number row.piece_per_case = some a → 0 < a →
      to_number row.pieces_per_pallet = some c → 0 < c →
      row.case_per_pallet = PVal.none →
      complete_packaging_triad row =
        { row with case_per_pallet := PVal.float (c / a) }) ∧
    (∀ b c : ℚ, to_number row.case_per_pallet = some b → 0 < b →
      to_number row.pieces_per_pallet = some c → 0 < c →
      row.piece_per_case = PVal.none →
      complete_packaging_triad row =
        { row with piece_per_case := PVal.float (c / b) }) ∧
    (row.piece_per_case ≠ PVal.none → row.case_per_pallet ≠ PVal.none →
      row.pieces_per_pallet ≠ PVal.none →
      complete_packaging_triad row = row) := by
  have tnone : to_number PVal.none = Option.none := rfl
  refine ⟨?_, ?_, ?_, ?_⟩
  · intro a b ha hapos hb hbpos hppp
    have hc0 : to_number row.pieces_per_pallet = Option.none := by rw [hppp, tnone]
    simp [complete_packaging_triad, triadFillA, triadFillB, triadFillC,
      ha, hb, hc0, hppp, tnone, is_valid_positive_number, hapos, hbpos]
  · intro a c ha hapos hc hcpos hcpp
    have hb0 : to_number row.case_per_pallet = Option.none := by rw [hcpp, tnone]
    simp [complete_packaging_triad, triadFillA, triadFillB, triadFillC,
      ha, hc, hb0, hcpp, tnone, is_valid_positive_number,
      hapos, hcpos, ne_of_gt hapos]
  · intro b c hb hbpos hc hcpos hppc
    have ha0 : to_number row.piece_per_case = Option.none := by rw [hppc, tnone]
    have hcpn : row.case_per_pallet ≠ PVal.none := by
      intro h; rw [h, tnone] at hb; exact Option.noConfusion hb
    simp [complete_packaging_triad, triadFillA, triadFillB, triadFillC,
      hb, hc, ha0, hppc, hcpn, tnone, is_valid_positive_number,
      hbpos, hcpos, ne_of_gt hbpos]
  · intro h1 h2 h3
    simp [complete_packaging_triad, triadFillA_of_ne _ _ _ h1,
      triadFillB_of_ne, triadFillC_of_ne, h1, h2, h3]


/-- C3: for every canonical row whose availability_pieces is absent but
whose availability_cartons and piece_per_case are valid positive numbers,
complete_availability derives pieces as cartons times piece_per_case,
falling back to pallets times pieces_per_pallet only when the cartons path
is unavailable; after pieces is established by either path the forward
derivation is re-applied once to fill still-absent cartons and pallets;
and a present availability value is never overwritten. -/
theorem C3_complete_availability (row : CanonicalRow) :
    (∀ ca p pp : ℚ, row.availability_pieces = PVal.none →
      to_number row.availability_cartons = some ca → 0 < ca →
      to_number row.piece_per_case = some p → 0 < p →
      row.availability_pallets = PVal.none →
      to_number row.pieces_per_pallet = some pp → 0 < pp →
      complete_availability row =
        { row with availability_pieces := PVal.float (ca * p),
                   availability_pallets := PVal.float (ca * p / pp) }) ∧
    (∀ ca p : ℚ, row.availability_pieces = PVal.none →
      to_number row.availability_cartons = some ca → 0 < ca →
      to_number row.piece_per_case = some p → 0 < p →
      ¬is_valid_positive_number (to_number row.pieces_per_pallet) →
      complete_availability row =
        { row with availability_pieces := PVal.float (ca * p) }) ∧
    (∀ ca p : ℚ, row.availability_pieces = PVal.none →
      to_number row.availability_cartons = some ca → 0 < ca →
      to_number row.piece_per_case = some p → 0 < p →
      row.availability_pallets ≠ PVal.none →
      complete_availability row =
        { row with availability_pieces := PVal.float (ca * p) }) ∧
    (∀ pal pp p : ℚ, row.availability_pieces = PVal.none →
      row.availability_cartons = PVal.none →
      to_number row.availability_pallets = some pal → 0 < pal →
      to_number row.pieces_per_pallet = some pp → 0 < pp →
      to_number row.piece_per_case = some p → 0 < p →
      complete_availability row =
        { row with availability_pieces := PVal.float (pal * pp),
                   availability_cartons := PVal.float (pal * pp / p) }) ∧
    (∀ pal pp : ℚ, row.availability_pieces = PVal.none →
      row.availability_cartons = PVal.none →
      to_number row.availability_pallets = some pal → 0 < pal →
      to_number row.pieces_per_pallet = some pp → 0 < pp →
      ¬is_valid_positive_number (to_number row.piece_per_case) →
      complete_availability row =
        { row with availability_pieces := PVal.float (pal * pp) }) ∧
    ((row.availability_pieces ≠ PVal.none →
      (complete_availability row).availability_pieces = row.availability_pieces) ∧
     (row.availability_cartons ≠ PVal.none →
      (complete_availability row).availability_cartons = row.availability_cartons) ∧
     (row.availability_pallets ≠ PVal.none →
      (complete_availability row).availability_pallets = row.availability_pallets)) := by
  have tnone : to_number PVal.none = Option.none := rfl
  have tfloat : ∀ q : ℚ, to_number (PVal.float q) = some q := fun q => rfl
  refine ⟨?_, ?_, ?_, ?_, ?_, ?_, ?_, ?_⟩
  · intro ca p pp hpn hca hcapos hp hppos hpaln hpp hpppos
    have h0 : to_number row.availability_pieces = Option.none := by rw [hpn, tnone]
    have hcn : row.availability_cartons ≠ PVal.none := by
      intro h; rw [h, tnone] at hca; exact Option.noConfusion hca
    simp [complete_availability, availFillCartons, availFillPallets, availReverse,
      h0, hca, hp, hpp, hpn, hpaln, hcn, tnone, tfloat,
      is_valid_positive_number, hcapos, hppos, hpppos, mul_pos hcapos hppos,
      ne_of_gt hppos, ne_of_gt hpppos]
  · intro ca p hpn hca hcapos hp hppos hppinv
    have h0 : to_number row.availability_pieces = Option.none := by rw [hpn, tnone]
    have hcn : row.availability_cartons ≠ PVal.none := by
      intro h; rw [h, tnone] at hca; exact Option.noConfusion hca
    simp only [is_valid_positive_number] at hppinv
    simp [complete_availability, availFillCartons, availFillPallets, availReverse,
      h0, hca, hp, hpn, hcn, tnone, tfloat, hppinv,
      is_valid_positive_number, hcapos, hppos, mul_pos hcapos hppos,
      ne_of_gt hppos]
  · intro ca p hpn hca hcapos hp hppos hpaln
    have h0 : to_number row.availability_pieces = Option.none := by rw [hpn, tnone]
    have hcn : row.availability_cartons ≠ PVal.none := by
      intro h; rw [h, tnone] at hca; exact Option.noConfusion hca
    simp [complete_availability, availFillCartons, availFillPallets, availReverse,
      h0, hca, hp, hpn, hcn, hpaln, tnone, tfloat,
      is_valid_positive_number, hcapos, hppos, mul_pos hcapos hppos,
      ne_of_gt hppos]
  · intro pal pp p hpn hcn hpal hpalpos hpp hpppos hp hppos
    have h0 : to_number row.availability_pieces = Option.none := by rw [hpn, tnone]
    have h1 : to_number row.availability_cartons = Option.none := by rw [hcn, tnone]
    have hpaln : row.availability_pallets ≠ PVal.none := by
      intro h; rw [h, tnone] at hpal; exact Option.noConfusion hpal
    simp [complete_availability, availFillCartons, availFillPallets, availReverse,
      h0, h1, hpal, hpp, hp, hpn, hcn, hpaln, tnone, tfloat,
      is_valid_positive_number, hpalpos, hpppos, hppos, mul_pos hpalpos hpppos,
      ne_of_gt hppos, ne_of_gt hpppos]
  · intro pal pp hpn hcn hpal hpalpos hpp hpppos hpinv
    have h0 : to_number row.availability_pieces = Option.none := by rw [hpn, tnone]
    have h1 : to_number row.availability_cartons = Option.none := by rw [hcn, tnone]
    have hpaln : row.availability_pallets ≠ PVal.none := by
      intro h; rw [h, tnone] at hpal; exact Option.noConfusion hpal
    simp only [is_valid_positive_number] at hpinv
    simp [complete_availability, availFillCartons, availFillPallets, availReverse,
      h0, h1, hpal, hpp, hpn, hcn, hpaln, tnone, tfloat, hpinv,
      is_valid_positive_number, hpalpos, hpppos, mul_pos hpalpos hpppos,
      ne_of_gt hpppos]
  · intro h
    simp only [complete_availability, availFillCartons_avp, availFillPallets_avp]
    rw [availReverse_of_ne]
    · simp
    · simp [h]
  · intro h
    simp only [complete_availability]
    simp [availFillCartons_avc_of_ne, h]
  · intro h
    simp only [complete_availability]
    simp [availFillPallets_avl_of_ne, h]


/-- Availability completion never touches the packaging fields. -/
theorem avail_ppc (r : CanonicalRow) :
    (complete_availability r).piece_per_case = r.piece_per_case := by
  simp only [complete_availability]; simp

theorem avail_cpp (r : CanonicalRow) :
    (complete_availability r).case_per_pallet = r.case_per_pallet := by
  simp only [complete_availability]; simp

theorem avail_ppp (r : CanonicalRow) :
    (complete_availability r).pieces_per_pallet = r.pieces_per_pallet := by
  simp only [complete_availability]; simp

/-- Triad completion never touches the availability fields. -/
theorem triad_avp (r : CanonicalRow) :
    (complete_packaging_triad r).availability_pieces = r.availability_pieces := by
  simp only [complete_packaging_triad]; simp

theorem triad_avc (r : CanonicalRow) :
    (complete_packaging_triad r).availability_cartons = r.availability_cartons := by
  simp only [complete_packaging_triad]; simp

theorem triad_avl (r : CanonicalRow) :
    (complete_packaging_triad r).availability_pallets = r.availability_pallets := by
  simp only [complete_packaging_triad]; simp

/-- Closed forms for each packaging field of the triad pass. -/
theorem triad_ppc_char (r : CanonicalRow) :
    (complete_packaging_triad r).piece_per_case =
      if is_valid_positive_number (to_number r.case_per_pallet) ∧
          is_valid_positive_number (to_number r.pieces_per_pallet) ∧
          r.piece_per_case = PVal.none ∧ (to_number r.case_per_pallet).getD 0 ≠ 0 then
        PVal.float ((to_number r.pieces_per_pallet).getD 0 / (to_number r.case_per_pallet).getD 0)
      else r.piece_per_case := by
  simp only [complete_packaging_triad]
  unfold triadFillA
  simp only [triadFillB_ppc, triadFillC_ppc]
  split_ifs <;> simp

theorem triad_cpp_char (r : CanonicalRow) :
    (complete_packaging_triad r).case_per_pallet =
      if is_valid_positive_number (to_number r.piece_per_case) ∧
          is_valid_positive_number (to_number r.pieces_per_pallet) ∧
          r.case_per_pallet = PVal.none ∧ (to_number r.piece_per_case).getD 0 ≠ 0 then
        PVal.float ((to_number r.pieces_per_pallet).getD 0 / (to_number r.piece_per_case).getD 0)
      else r.case_per_pallet := by
  simp only [complete_packaging_triad, triadFillA_cpp]
  unfold triadFillB
  simp only [triadFillC_cpp]
  split_ifs <;> simp

theorem triad_ppp_char (r : CanonicalRow) :
    (complete_packaging_triad r).pieces_per_pallet =
      if is_valid_positive_number (to_number r.piece_per_case) ∧
          is_valid_positive_number (to_number r.case_per_pallet) ∧
          r.pieces_per_pallet = PVal.none then
        PVal.float ((to_number r.piece_per_case).getD 0 * (to_number r.case_per_pallet).getD 0)
      else r.pieces_per_pallet := by
  simp only [complete_packaging_triad, triadFillA_ppp, triadFillB_ppp]
  unfold triadFillC
  split_ifs <;> simp

/-- If none of the three triad guards holds, the triad pass is the identity. -/
theorem triad_eq_self (s : CanonicalRow)
    (hC : ¬(is_valid_positive_number (to_number s.piece_per_case) ∧
        is_valid_positive_number (to_number s.case_per_pallet) ∧
        s.pieces_per_pallet = PVal.none))
    (hB : ¬(is_valid_positive_number (to_number s.piece_per_case) ∧
        is_valid_positive_number (to_number s.pieces_per_pallet) ∧
        s.case_per_pallet = PVal.none ∧ (to_number s.piece_per_case).getD 0 ≠ 0))
    (hA : ¬(is_valid_positive_number (to_number s.case_per_pallet) ∧
        is_valid_positive_number (to_number s.pieces_per_pallet) ∧
        s.piece_per_case = PVal.none ∧ (to_number s.case_per_pallet).getD 0 ≠ 0)) :
    complete_packaging_triad s = s := by
  simp only [complete_packaging_triad]
  rw [show triadFillC (to_number s.piece_per_case) (to_number s.case_per_pallet) s = s from by
    unfold triadFillC; exact if_neg hC]
  rw [show triadFillB (to_number s.piece_per_case) (to_number s.pieces_per_pallet) s = s from by
    unfold triadFillB; exact if_neg hB]
  unfold triadFillA; exact if_neg hA

/-- Any row that agrees with a triad output on the three packaging fields is
a fixed point of the triad pass. -/
theorem triad_idem_aux (r s : CanonicalRow)
    (h1 : s.piece_per_case = (complete_packaging_triad r).piece_per_case)
    (h2 : s.case_per_pallet = (complete_packaging_triad r).case_per_pallet)
    (h3 : s.pieces_per_pallet = (complete_packaging_triad r).pieces_per_pallet) :
    complete_packaging_triad s = s := by
  have tnone : to_number PVal.none = Option.none := rfl
  have nvnone : ¬is_valid_positive_number Option.none := by
    simp [is_valid_positive_number]
  rw [triad_ppc_char] at h1
  rw [triad_cpp_char] at h2
  rw [triad_ppp_char] at h3
  apply triad_eq_self
  · rintro ⟨va, vb, hpn⟩
    rw [h3] at hpn
    split_ifs at hpn with g
    have hrppn : r.pieces_per_pallet = PVal.none := hpn
    have hcinv : ¬is_valid_positive_number (to_number r.pieces_per_pallet) := by
      rw [hrppn, tnone]; exact nvnone
    rw [if_neg (fun k => hcinv k.2.1)] at h1
    rw [if_neg (fun k => hcinv k.2.1)] at h2
    rw [h1] at va; rw [h2] at vb
    exact g ⟨va, vb, hpn⟩
  · rintro ⟨va, vc, hcn, hane⟩
    rw [h2] at hcn
    split_ifs at hcn with g
    have hrcpn : r.case_per_pallet = PVal.none := hcn
    have hbinv : ¬is_valid_positive_number (to_number r.case_per_pallet) := by
      rw [hrcpn, tnone]; exact nvnone
    rw [if_neg (fun k => hbinv k.1)] at h1
    rw [if_neg (fun k => hbinv k.2.1)] at h3
    rw [h1] at va hane; rw [h3] at vc
    exact g ⟨va, vc, hcn, hane⟩
  · rintro ⟨vb, vc, hpn, hbne⟩
    rw [h1] at hpn
    split_ifs at hpn with g
    have hrpn : r.piece_per_case = PVal.none := hpn
    have hainv : ¬is_valid_positive_number (to_number r.piece_per_case) := by
      rw [hrpn, tnone]; exact nvnone
    rw [if_neg (fun k => hainv k.1)] at h2
    rw [if_neg (fun k => hainv k.1)] at h3
    rw [h2] at vb hbne; rw [h3] at vc
    exact g ⟨vb, vc, hpn, hbne⟩


/-- Projections distribute over if-then-else on rows. -/
@[simp] theorem ite_row_ppc (c : Prop) [Decidable c] (a b : CanonicalRow) :
    (if c then a else b).piece_per_case =
      if c then a.piece_per_case else b.piece_per_case := by
  split_ifs <;> rfl

@[simp] theorem ite_row_cpp (c : Prop) [Decidable c] (a b : CanonicalRow) :
    (if c then a else b).case_per_pallet =
      if c then a.case_per_pallet else b.case_per_pallet := by
  split_ifs <;> rfl

@[simp] theorem ite_row_ppp (c : Prop) [Decidable c] (a b : CanonicalRow) :
    (if c then a else b).pieces_per_pallet =
      if c then a.pieces_per_pallet else b.pieces_per_pallet := by
  split_ifs <;> rfl

@[simp] theorem ite_row_avp (c : Prop) [Decidable c] (a b : CanonicalRow) :
    (if c then a else b).availability_pieces =
      if c then a.availability_pieces else b.availability_pieces := by
  split_ifs <;> rfl

@[simp] theorem ite_row_avc (c : Prop) [Decidable c] (a b : CanonicalRow) :
    (if c then a else b).availability_cartons =
      if c then a.availability_cartons else b.availability_cartons := by
  split_ifs <;> rfl

@[simp] theorem ite_row_avl (c : Prop) [Decidable c] (a b : CanonicalRow) :
    (if c then a else b).availability_pallets =
      if c then a.availability_pallets else b.availability_pallets := by
  split_ifs <;> rfl

/-- Reverse derivation is the identity when both source pairs are unusable. -/
theorem availReverse_of_guards (ca pa p q : Option ℚ) (s : CanonicalRow)
    (h1 : ¬(is_valid_positive_number ca ∧ is_valid_positive_number p))
    (h2 : ¬(is_valid_positive_number pa ∧ is_valid_positive_number q)) :
    availReverse ca pa p q s = s := by
  by_cases hps : s.availability_pieces = PVal.none
  · simp [availReverse, hps, h1, h2]
  · simp [availReverse, hps]

/-- Closed form for the pieces cell of the availability pass. -/
theorem avail_avP_char (r : CanonicalRow) :
    (complete_availability r).availability_pieces =
      if r.availability_pieces = PVal.none ∧
          (is_valid_positive_number (to_number r.availability_cartons) ∧
           is_valid_positive_number (to_number r.piece_per_case)) then
        PVal.float ((to_number r.availability_cartons).getD 0 *
          (to_number r.piece_per_case).getD 0)
      else if r.availability_pieces = PVal.none ∧
          ¬(is_valid_positive_number (to_number r.availability_cartons) ∧
            is_valid_positive_number (to_number r.piece_per_case)) ∧
          (is_valid_positive_number (to_number r.availability_pallets) ∧
           is_valid_positive_number (to_number r.pieces_per_pallet)) then
        PVal.float ((to_number r.availability_pallets).getD 0 *
          (to_number r.pieces_per_pallet).getD 0)
      else r.availability_pieces := by
  simp only [complete_availability, availFillPallets_avp, availFillCartons_avp]
  unfold availReverse
  simp only [availFillPallets_avp, availFillCartons_avp]
  split_ifs <;> simp_all

/-- Closed form for the cartons cell of the availability pass. -/
theorem avail_avC_char (r : CanonicalRow) :
    (complete_availability r).availability_cartons =
      if is_valid_positive_number (to_number r.availability_pieces) ∧
          r.availability_cartons = PVal.none ∧
          is_valid_positive_number (to_number r.piece_per_case) ∧
          (to_number r.piece_per_case).getD 0 ≠ 0 then
        PVal.float ((to_number r.availability_pieces).getD 0 /
          (to_number r.piece_per_case).getD 0)
      else if (r.availability_pieces = PVal.none ∧
          ¬(is_valid_positive_number (to_number r.availability_cartons) ∧
            is_valid_positive_number (to_number r.piece_per_case)) ∧
          (is_valid_positive_number (to_number r.availability_pallets) ∧
           is_valid_positive_number (to_number r.pieces_per_pallet))) ∧
          (r.availability_cartons = PVal.none ∧
           is_valid_positive_number (to_number r.piece_per_case) ∧
           (to_number r.piece_per_case).getD 0 ≠ 0) then
        PVal.float ((to_number r.availability_pallets).getD 0 *
          (to_number r.pieces_per_pallet).getD 0 /
          (to_number r.piece_per_case).getD 0)
      else r.availability_cartons := by
  have tnone : to_number PVal.none = Option.none := rfl
  have tfloat : ∀ q : ℚ, to_number (PVal.float q) = some q := fun q => rfl
  have nvnone : ¬is_valid_positive_number Option.none := by
    simp [is_valid_positive_number]
  by_cases hp : r.availability_pieces = PVal.none
  · have vpn : ¬is_valid_positive_number (to_number r.availability_pieces) := by
      rw [hp, tnone]; exact nvnone
    by_cases gca : is_valid_positive_number (to_number r.availability_cartons) ∧
        is_valid_positive_number (to_number r.piece_per_case)
    · have hcn : r.availability_cartons ≠ PVal.none := by
        intro h; rw [h, tnone] at gca; exact nvnone gca.1
      simp [complete_availability, availFillCartons, availReverse, hp, gca, vpn, hcn, tnone, nvnone, tfloat]
    · by_cases gpal : is_valid_positive_number (to_number r.availability_pallets) ∧
          is_valid_positive_number (to_number r.pieces_per_pallet)
      · have hv2 : is_valid_positive_number
            (some ((to_number r.availability_pallets).getD 0 *
              (to_number r.pieces_per_pallet).getD 0)) := by
          have := mul_pos gpal.1 gpal.2
          simpa [is_valid_positive_number] using this
        by_cases hrc : r.availability_cartons = PVal.none
        · by_cases vpc : is_valid_positive_number (to_number r.piece_per_case)
          · have hne : (to_number r.piece_per_case).getD 0 ≠ 0 := ne_of_gt vpc
            simp [complete_availability, availFillCartons, availReverse, hp, gca, gpal,
              vpn, hrc, vpc, hne, tnone, nvnone, tfloat, hv2]
          · simp [complete_availability, availFillCartons, availReverse, hp, gca, gpal,
              vpn, hrc, vpc, tnone, nvnone, tfloat]
        · simp [complete_availability, availFillCartons, availReverse, hp, gca, gpal,
            vpn, hrc, tnone, nvnone, tfloat]
      · simp [complete_availability, availFillCartons, availReverse, hp, gca, gpal,
          vpn, tnone, nvnone, tfloat]
  · by_cases g1 : is_valid_positive_number (to_number r.availability_pieces) ∧
        r.availability_cartons = PVal.none ∧
        is_valid_positive_number (to_number r.piece_per_case) ∧
        (to_number r.piece_per_case).getD 0 ≠ 0
    · simp [complete_availability, availFillCartons, availReverse, hp, g1, tnone, nvnone, tfloat]
    · simp [complete_availability, availFillCartons, availReverse, hp, g1, tnone, nvnone, tfloat]

/-- Closed form for the pallets cell of the availability pass. -/
theorem avail_avL_char (r : CanonicalRow) :
    (complete_availability r).availability_pallets =
      if is_valid_positive_number (to_number r.availability_pieces) ∧
          r.availability_pallets = PVal.none ∧
          is_valid_positive_number (to_number r.pieces_per_pallet) ∧
          (to_number r.pieces_per_pallet).getD 0 ≠ 0 then
        PVal.float ((to_number r.availability_pieces).getD 0 /
          (to_number r.pieces_per_pallet).getD 0)
      else if (r.availability_pieces = PVal.none ∧
          (is_valid_positive_number (to_number r.availability_cartons) ∧
           is_valid_positive_number (to_number r.piece_per_case))) ∧
          (r.availability_pallets = PVal.none ∧
           is_valid_positive_number (to_number r.pieces_per_pallet) ∧
           (to_number r.pieces_per_pallet).getD 0 ≠ 0) then
        PVal.float ((to_number r.availability_cartons).getD 0 *
          (to_number r.piece_per_case).getD 0 /
          (to_number r.pieces_per_pallet).getD 0)
      else r.availability_pallets := by
  have tnone : to_number PVal.none = Option.none := rfl
  have tfloat : ∀ q : ℚ, to_number (PVal.float q) = some q := fun q => rfl
  have nvnone : ¬is_valid_positive_number Option.none := by
    simp [is_valid_positive_number]
  by_cases hp : r.availability_pieces = PVal.none
  · have vpn : ¬is_valid_positive_number (to_number r.availability_pieces) := by
      rw [hp, tnone]; exact nvnone
    by_cases gca : is_valid_positive_number (to_number r.availability_cartons) ∧
        is_valid_positive_number (to_number r.piece_per_case)
    · have hv2 : is_valid_positive_number
          (some ((to_number r.availability_cartons).getD 0 *
            (to_number r.piece_per_case).getD 0)) := by
        have := mul_pos gca.1 gca.2
        simpa [is_valid_positive_number] using this
      by_cases hl : r.availability_pallets = PVal.none
      · by_cases vppp : is_valid_positive_number (to_number r.pieces_per_pallet)
        · have hne : (to_number r.pieces_per_pallet).getD 0 ≠ 0 := ne_of_gt vppp
          simp [complete_availability, availFillPallets, availFillCartons, availReverse,
            hp, gca, vpn, hl, vppp, hne, tnone, nvnone, tfloat, hv2]
        · simp [complete_availability, availFillPallets, availFillCartons, availReverse,
            hp, gca, vpn, hl, vppp, tnone, nvnone, tfloat]
      · simp [complete_availability, availFillPallets, availFillCartons, availReverse,
          hp, gca, vpn, hl, tnone, nvnone, tfloat]
    · by_cases gpal : is_valid_positive_number (to_number r.availability_pallets) ∧
          is_valid_positive_number (to_number r.pieces_per_pallet)
      · have hln : r.availability_pallets ≠ PVal.none := by
          intro h; rw [h, tnone] at gpal; exact nvnone gpal.1
        simp [complete_availability, availFillPallets, availFillCartons, availReverse,
          hp, gca, gpal, vpn, hln, tnone, nvnone, tfloat]
      · simp [complete_availability, availFillPallets, availFillCartons, availReverse,
          hp, gca, gpal, vpn, tnone, nvnone, tfloat]
  · by_cases g1 : is_valid_positive_number (to_number r.availability_pieces) ∧
        r.availability_pallets = PVal.none ∧
        is_valid_positive_number (to_number r.pieces_per_pallet) ∧
        (to_number r.pieces_per_pallet).getD 0 ≠ 0
    · simp [complete_availability, availFillPallets, availFillCartons, availReverse, hp, g1,
        tnone, nvnone, tfloat]
    · simp [complete_availability, availFillPallets, availFillCartons, availReverse, hp, g1,
        tnone, nvnone, tfloat]


/-- If neither forward guard holds and the reverse block is a no-op, the
whole availability pass is the identity. -/
theorem avail_eq_self (s : CanonicalRow)
    (hFC : ¬(is_valid_positive_number (to_number s.availability_pieces) ∧
        s.availability_cartons = PVal.none ∧
        is_valid_positive_number (to_number s.piece_per_case) ∧
        (to_number s.piece_per_case).getD 0 ≠ 0))
    (hFL : ¬(is_valid_positive_number (to_number s.availability_pieces) ∧
        s.availability_pallets = PVal.none ∧
        is_valid_positive_number (to_number s.pieces_per_pallet) ∧
        (to_number s.pieces_per_pallet).getD 0 ≠ 0))
    (hR : availReverse (to_number s.availability_cartons)
        (to_number s.availability_pallets) (to_number s.piece_per_case)
        (to_number s.pieces_per_pallet) s = s) :
    complete_availability s = s := by
  simp only [complete_availability]
  rw [show availFillCartons (to_number s.availability_pieces)
      (to_number s.piece_per_case) s = s from by
    unfold availFillCartons; exact if_neg hFC]
  rw [show availFillPallets (to_number s.availability_pieces)
      (to_number s.pieces_per_pallet) s = s from by
    unfold availFillPallets; exact if_neg hFL]
  rw [hR]
  rw [show availFillCartons (to_number s.availability_pieces)
      (to_number s.piece_per_case) s = s from by
    unfold availFillCartons; exact if_neg hFC]
  rw [show availFillPallets (to_number s.availability_pieces)
      (to_number s.pieces_per_pallet) s = s from by
    unfold availFillPallets; exact if_neg hFL]

/-- The availability pass is idempotent. -/
theorem avail_idem (r : CanonicalRow) :
    complete_availability (complete_availability r) = complete_availability r := by
  have tnone : to_number PVal.none = Option.none := rfl
  have nvnone : ¬is_valid_positive_number Option.none := by
    simp [is_valid_positive_number]
  apply avail_eq_self
  · rw [avail_ppc, avail_avC_char, avail_avP_char]
    rintro ⟨vp, hc, vppc, hne⟩
    split_ifs at hc with g1 g2
    split_ifs at vp with h1 h2
    · rw [hc, tnone] at h1
      exact nvnone h1.2.1
    · exact g2 ⟨h2, hc, vppc, hne⟩
    · by_cases hpn : r.availability_pieces = PVal.none
      · rw [hpn, tnone] at vp
        exact nvnone vp
      · exact g1 ⟨vp, hc, vppc, hne⟩
  · rw [avail_ppp, avail_avL_char, avail_avP_char]
    rintro ⟨vp, hl, vppp, hne⟩
    split_ifs at hl with g1 g2
    split_ifs at vp with h1 h2
    · exact g2 ⟨h1, hl, vppp, hne⟩
    · rw [hl, tnone] at h2
      exact nvnone h2.2.2.1
    · by_cases hpn : r.availability_pieces = PVal.none
      · rw [hpn, tnone] at vp
        exact nvnone vp
      · exact g1 ⟨vp, hl, vppp, hne⟩
  · by_cases hzp : (complete_availability r).availability_pieces = PVal.none
    · have hzp2 := hzp
      rw [avail_avP_char] at hzp2
      split_ifs at hzp2 with h1 h2
      have k1 : ¬(is_valid_positive_number (to_number r.availability_cartons) ∧
          is_valid_positive_number (to_number r.piece_per_case)) := fun k => h1 ⟨hzp2, k⟩
      have k2 : ¬(is_valid_positive_number (to_number r.availability_pallets) ∧
          is_valid_positive_number (to_number r.pieces_per_pallet)) :=
        fun k => h2 ⟨hzp2, k1, k⟩
      have vpn : ¬is_valid_positive_number (to_number r.availability_pieces) := by
        rw [hzp2, tnone]; exact nvnone
      have ec : (complete_availability r).availability_cartons =
          r.availability_cartons := by
        rw [avail_avC_char, if_neg (fun k => vpn k.1), if_neg (fun k => k2 k.1.2.2)]
      have el : (complete_availability r).availability_pallets =
          r.availability_pallets := by
        rw [avail_avL_char, if_neg (fun k => vpn k.1), if_neg (fun k => k1 k.1.2)]
      rw [avail_ppc, avail_ppp, ec, el]
      exact availReverse_of_guards _ _ _ _ _ k1 k2
    · exact availReverse_of_ne _ _ _ _ _ hzp

/-- One full round (triad then availability) is idempotent. -/
theorem step_idem (r : CanonicalRow) :
    complete_availability (complete_packaging_triad
      (complete_availability (complete_packaging_triad r))) =
      complete_availability (complete_packaging_triad r) := by
  have ht : complete_packaging_triad
      (complete_availability (complete_packaging_triad r)) =
      complete_availability (complete_packaging_triad r) :=
    triad_idem_aux r _ (avail_ppc _) (avail_cpp _) (avail_ppp _)
  rw [ht, avail_idem]

/-- With the default 3 rounds, the iterated pass collapses to a single
round: the first round either changes nothing (and the loop stops) or the
second round fixes the row by idempotence of one round. -/
theorem apply_eq_step (r : CanonicalRow) :
    apply_packaging_math r =
      complete_availability (complete_packaging_triad r) := by
  show applyPackagingMathGo 3 r = _
  by_cases h : complete_availability (complete_packaging_triad r) = r
  · simp [applyPackagingMathGo, h]
  · simp [applyPackagingMathGo, h, step_idem]


/-- C4: the combined derivation pass apply_packaging_math (default up to 3
rounds, stopping early when the row stops changing) is idempotent: applied
a second time to its own result it leaves every canonical row unchanged. -/
theorem C4_apply_packaging_math_idempotent (row : CanonicalRow) :
    apply_packaging_math (apply_packaging_math row) = apply_packaging_math row := by
  simp only [apply_eq_step]
  exact step_idem row

/-- Witness for C2 at the concrete inputs of the specification example:
piece_per_case 10 and case_per_pallet 20 with pieces_per_pallet absent
yield 200, and a supplied inconsistent 150 is never overwritten. -/
theorem C2_complete_packaging_triad_witness :
    complete_packaging_triad
        ⟨PVal.int 10, PVal.int 20, PVal.none, PVal.none, PVal.none, PVal.none⟩ =
      ⟨PVal.int 10, PVal.int 20, PVal.float 200, PVal.none, PVal.none, PVal.none⟩ ∧
    complete_packaging_triad
        ⟨PVal.int 10, PVal.int 20, PVal.int 150, PVal.none, PVal.none, PVal.none⟩ =
      ⟨PVal.int 10, PVal.int 20, PVal.int 150, PVal.none, PVal.none, PVal.none⟩ := by
  constructor
  · have h := (C2_complete_packaging_triad
      ⟨PVal.int 10, PVal.int 20, PVal.none, PVal.none, PVal.none, PVal.none⟩).1
      10 20 (by decide) (by norm_num) (by decide) (by norm_num) rfl
    have e : (10 : ℚ) * 20 = 200 := by norm_num
    exact h.trans (by rw [e])
  · exact (C2_complete_packaging_triad
      ⟨PVal.int 10, PVal.int 20, PVal.int 150, PVal.none, PVal.none, PVal.none⟩).2.2.2
      (by decide) (by decide) (by decide)

/-- Witness for C3 at the concrete inputs of the specification example:
cartons 12 and piece_per_case 10 with pieces absent derive pieces 120. -/
theorem C3_complete_availability_witness :
    complete_availability
        ⟨PVal.int 10, PVal.none, PVal.none, PVal.none, PVal.int 12, PVal.none⟩ =
      ⟨PVal.int 10, PVal.none, PVal.none, PVal.float 120, PVal.int 12, PVal.none⟩ := by
  have h := (C3_complete_availability
    ⟨PVal.int 10, PVal.none, PVal.none, PVal.none, PVal.int 12, PVal.none⟩).2.1
    12 10 rfl (by decide) (by norm_num) (by decide) (by norm_num) (by decide)
  have e : (12 : ℚ) * 10 = 120 := by norm_num
  exact h.trans (by rw [e])

end PackagingMath

namespace ArticleNumber

/-- Configuration for the article number format, from
fields/article_number.py ArticleNumberConfig (the field named prefix in
the source is called prefixStr here). -/
structure ArticleNumberConfig where
  prefixStr : String
  width : Nat
  start_next : Int

/-- The default configuration of the source: literal AC, width 8, start
value 1000 used only when no state file exists. -/
def defaultConfig : ArticleNumberConfig :=
  { prefixStr := "AC", width := 8, start_next := 1000 }

/-- Error sites of ArticleNumberError in fields/article_number.py, one
constructor per raise site (the source uses one exception class with
distinct messages). -/
inductive ArticleNumberError where
  | invalidCount
  | readParseFailed
  | invalidStateFormat
  | invalidNextValue
  | negativeFormat
deriving DecidableEq, Repr

/-- JSON values as Python json.loads produces them: null, bool, int,
non-integral number (kept as its literal text, never used arithmetically
by the allocator), string, array, object. -/
inductive Json where
  | null
  | bool (b : Bool)
  | int (n : Int)
  | float (s : String)
  | str (s : String)
  | arr (xs : List Json)
  | obj (kvs : List (String × Json))

/-- Python dict lookup on the parsed object: with duplicate keys,
json.loads keeps the last occurrence. -/
def jlookup (kvs : List (String × Json)) (k : String) : Option Json :=
  match kvs with
  | [] => Option.none
  | (k2, v) :: rest =>
    match jlookup rest k with
    | some w => some w
    | Option.none => if k2 = k then some v else Option.none

/-- Python isinstance(x, int): true for ints and also for bools, because
bool is a subtype of int in Python. -/
def isInstInt (j : Json) : Bool :=
  match j with
  | .int _ => true
  | .bool _ => true
  | _ => false

/-- The integer value Python sees for a value passing isinstance(x, int):
True counts as 1 and False as 0. -/
def intOfJson (j : Json) : Int :=
  match j with
  | .int n => n
  | .bool b => if b then 1 else 0
  | _ => 0

/-- Content of the persisted state file: parsed JSON when readable and
well formed, or garbage when reading or JSON parsing raises. -/
inductive FileContent where
  | valid (j : Json)
  | garbage

/-- The persisted allocator state: none when the file is absent. -/
def ANState := Option FileContent

/-- Embeds fields/article_number.py _load_state, lines 44-67 (the copy in
article_number/logic.py lines 29-48 is structurally identical): absent
file yields the configured start value; unreadable or invalid JSON fails;
a parse result that is not an object or lacks the next key fails; a next
value that is not a Python int (bools pass isinstance) or is negative
fails. -/
def load_state (st : ANState) (cfg : ArticleNumberConfig) :
    Except ArticleNumberError Int :=
  match st with
  | Option.none => Except.ok cfg.start_next
  | some .garbage => Except.error .readParseFailed
  | some (.valid raw) =>
    match raw with
    | .obj kvs =>
      match jlookup kvs "next" with
      | Option.none => Except.error .invalidStateFormat
      | some nxt =>
        if isInstInt nxt then
          if intOfJson nxt < 0 then Except.error .invalidNextValue
          else Except.ok (intOfJson nxt)
        else Except.error .invalidNextValue
    | _ => Except.error .invalidStateFormat

/-- Embeds _save_state, lines 70-80: the new state file content after the
temp-file-and-replace write. -/
def save_state (next_value : Int) : ANState :=
  some (.valid (.obj [("next", Json.int next_value)]))

/-- Zero padding of Python format f-string 0 width d for a non-negative
value: pad with zeros up to the width, never truncate. -/
def zeroPad (w : Nat) (n : Nat) : String :=
  let s := toString n
  if s.length < w then String.mk (List.replicate (w - s.length) '0') ++ s else s

/-- Embeds format_article_number, lines 83-91: negative input fails,
otherwise the prefix followed by the zero-padded decimal. -/
def format_article_number (n : Int) (cfg : ArticleNumberConfig) :
    Except ArticleNumberError String :=
  if n < 0 then Except.error .negativeFormat
  else Except.ok (cfg.prefixStr ++ zeroPad cfg.width n.toNat)

/-- Embeds allocate, lines 94-124: validate the count, load the state,
format the range, persist the incremented counter. The pair returns the
state file content after the call; every failure path leaves it
untouched, because the source raises before _save_state runs. -/
def allocate (count : Int) (st : ANState) (cfg : ArticleNumberConfig) :
    Except ArticleNumberError (List String) × ANState :=
  if ¬0 < count then (Except.error .invalidCount, st)
  else
    match load_state st cfg with
    | Except.error e => (Except.error e, st)
    | Except.ok current_next =>
      match (List.range count.toNat).mapM
          (fun (i : Nat) => format_article_number (current_next + i) cfg) with
      | Except.error e => (Except.error e, st)
      | Except.ok allocated => (Except.ok allocated, save_state (current_next + count))

/-- Embeds peek_next, lines 127-137: format the loaded counter without
writing. -/
def peek_next (st : ANState) (cfg : ArticleNumberConfig) :
    Except ArticleNumberError String :=
  match load_state st cfg with
  | Except.error e => Except.error e
  | Except.ok current_next => format_article_number current_next cfg

/-- Formatting a non-negative range never fails and yields the padded
strings. -/
theorem mapM_format_ok (cfg : ArticleNumberConfig) (l : List Nat) (M : Int)
    (hM : 0 ≤ M) :
    l.mapM (fun (i : Nat) => format_article_number (M + i) cfg) =
      Except.ok (l.map (fun (i : Nat) => cfg.prefixStr ++ zeroPad cfg.width (M + i).toNat)) := by
  induction l with
  | nil => rfl
  | cons x xs ih =>
    have hx : ¬(M + (x : Int) < 0) := by omega
    rw [List.mapM_cons]
    rw [show format_article_number (M + (x : Int)) cfg =
        Except.ok (cfg.prefixStr ++ zeroPad cfg.width (M + (x : Int)).toNat) from by
      unfold format_article_number; rw [if_neg hx]]
    rw [ih]
    rfl


/-- Loading a well formed state object yields its counter value. -/
theorem load_state_ok (N : Int) (hN : 0 ≤ N) :
    load_state (some (.valid (.obj [("next", Json.int N)]))) defaultConfig =
      Except.ok N := by
  simp [load_state, jlookup, isInstInt, intOfJson, not_lt.mpr hN]

/-- Allocation from a well formed state returns the formatted contiguous
range and persists the advanced counter. -/
theorem allocate_ok (N count : Int) (hN : 0 ≤ N) (hc : 0 < count) :
    allocate count (some (.valid (.obj [("next", Json.int N)]))) defaultConfig =
      (Except.ok ((List.range count.toNat).map
        (fun (i : Nat) => "AC" ++ zeroPad 8 (N + i).toNat)),
       some (.valid (.obj [("next", Json.int (N + count))]))) := by
  unfold allocate
  rw [if_neg (not_not_intro hc), load_state_ok N hN]
  simp only [mapM_format_ok defaultConfig (List.range count.toNat) N hN]
  rfl

/-- C1: starting from any persisted counter state with a non-negative next
value N, allocate with a positive count returns the formatted strings for
the contiguous range from N of that length, persists next as N plus
count, a subsequent peek_next or allocate starts from N plus count, and a
non-positive count fails with the invalid-input error leaving the state
unchanged. -/
theorem C1_allocate_contiguous (N count c2 cbad : Int)
    (hN : 0 ≤ N) (hc : 0 < count) (hc2 : 0 < c2) (hbad : ¬0 < cbad) :
    (allocate count (some (.valid (.obj [("next", Json.int N)]))) defaultConfig).1 =
      Except.ok ((List.range count.toNat).map
        (fun (i : Nat) => "AC" ++ zeroPad 8 (N + i).toNat)) ∧
    (allocate count (some (.valid (.obj [("next", Json.int N)]))) defaultConfig).2 =
      some (.valid (.obj [("next", Json.int (N + count))])) ∧
    peek_next
        (allocate count (some (.valid (.obj [("next", Json.int N)]))) defaultConfig).2
        defaultConfig =
      Except.ok ("AC" ++ zeroPad 8 (N + count).toNat) ∧
    (allocate c2
        (allocate count (some (.valid (.obj [("next", Json.int N)]))) defaultConfig).2
        defaultConfig).1 =
      Except.ok ((List.range c2.toNat).map
        (fun (i : Nat) => "AC" ++ zeroPad 8 (N + count + i).toNat)) ∧
    allocate cbad (some (.valid (.obj [("next", Json.int N)]))) defaultConfig =
      (Except.error ArticleNumberError.invalidCount,
       some (.valid (.obj [("next", Json.int N)]))) := by
  have hNc : 0 ≤ N + count := by omega
  have h := allocate_ok N count hN hc
  refine ⟨by rw [h], by rw [h], ?_, ?_, ?_⟩
  · rw [h]
    simp only [peek_next, load_state_ok _ hNc]
    simp [format_article_number, not_lt.mpr hNc, defaultConfig]
  · rw [h]
    show (allocate c2 (some (.valid (.obj [("next", Json.int (N + count))]))) defaultConfig).1 = _
    rw [allocate_ok _ c2 hNc hc2]
  · unfold allocate
    rw [if_pos hbad]

/-- Witness for C1 at the inputs of the specification example: next 1000,
allocate 3, then allocate 1, plus the invalid count 0. -/
theorem C1_allocate_contiguous_witness :
    (allocate 3 (some (.valid (.obj [("next", Json.int 1000)]))) defaultConfig).1 =
      Except.ok ["AC00001000", "AC00001001", "AC00001002"] ∧
    (allocate 3 (some (.valid (.obj [("next", Json.int 1000)]))) defaultConfig).2 =
      some (.valid (.obj [("next", Json.int 1003)])) ∧
    peek_next
        (allocate 3 (some (.valid (.obj [("next", Json.int 1000)]))) defaultConfig).2
        defaultConfig =
      Except.ok "AC00001003" ∧
    (allocate 1
        (allocate 3 (some (.valid (.obj [("next", Json.int 1000)]))) defaultConfig).2
        defaultConfig).1 =
      Except.ok ["AC00001003"] ∧
    allocate 0 (some (.valid (.obj [("next", Json.int 1000)]))) defaultConfig =
      (Except.error ArticleNumberError.invalidCount,
       some (.valid (.obj [("next", Json.int 1000)]))) := by
  obtain ⟨h1, h2, h3, h4, h5⟩ :=
    C1_allocate_contiguous 1000 3 1 0 (by norm_num) (by norm_num) (by norm_num)
      (by norm_num)
  refine ⟨h1.trans (congrArg Except.ok (by decide)),
    h2.trans (by rw [show (1000 : Int) + 3 = 1003 from by norm_num]),
    h3.trans (congrArg Except.ok (by decide)),
    h4.trans (congrArg Except.ok (by decide)), h5⟩

/-- C9 counterexample: a state file holding a boolean next value is
accepted by the loader (Python bool passes isinstance int, True reads as
1) instead of failing with the data-corruption error the claim demands. -/
theorem C9_counterexample_bool_next :
    load_state (some (.valid (.obj [("next", Json.bool true)]))) defaultConfig =
      Except.ok 1 := rfl

/-- C9 amended: loading is total over the claimed cases with one
exception: an absent file yields the start value 1000; garbage, a
non-object, a missing next key, a negative integer next, and a
non-integer non-boolean next all fail with the matching error; a boolean
next is accepted as 0 or 1 because Python bool is an int subtype; and no
failure path of allocate changes the state file. -/
theorem C9_load_state_totality :
    (load_state Option.none defaultConfig = Except.ok 1000) ∧
    (load_state (some FileContent.garbage) defaultConfig =
      Except.error ArticleNumberError.readParseFailed) ∧
    (∀ j : Json, (∀ kvs, j ≠ Json.obj kvs) →
      load_state (some (.valid j)) defaultConfig =
        Except.error ArticleNumberError.invalidStateFormat) ∧
    (∀ kvs, jlookup kvs "next" = Option.none →
      load_state (some (.valid (.obj kvs))) defaultConfig =
        Except.error ArticleNumberError.invalidStateFormat) ∧
    (∀ kvs v, jlookup kvs "next" = some v → isInstInt v = false →
      load_state (some (.valid (.obj kvs))) defaultConfig =
        Except.error ArticleNumberError.invalidNextValue) ∧
    (∀ kvs n, jlookup kvs "next" = some (Json.int n) → n < 0 →
      load_state (some (.valid (.obj kvs))) defaultConfig =
        Except.error ArticleNumberError.invalidNextValue) ∧
    (∀ kvs b, jlookup kvs "next" = some (Json.bool b) →
      load_state (some (.valid (.obj kvs))) defaultConfig =
        Except.ok (if b then 1 else 0)) ∧
    (∀ (count : Int) (st : ANState) (cfg : ArticleNumberConfig)
        (e : ArticleNumberError),
      (allocate count st cfg).1 = Except.error e →
        (allocate count st cfg).2 = st) := by
  refine ⟨rfl, rfl, ?_, ?_, ?_, ?_, ?_, ?_⟩
  · intro j hj
    cases j with
    | obj kvs => exact absurd rfl (hj kvs)
    | null => rfl
    | bool b => rfl
    | int n => rfl
    | float s => rfl
    | str s => rfl
    | arr xs => rfl
  · intro kvs h
    simp [load_state, h]
  · intro kvs v h hni
    simp [load_state, h, hni]
  · intro kvs n h hneg
    simp [load_state, h, isInstInt, intOfJson, hneg]
  · intro kvs b h
    cases b <;> simp [load_state, h, isInstInt, intOfJson]
  · intro count st cfg e
    unfold allocate
    by_cases hc : ¬0 < count
    · rw [if_pos hc]; intro _; rfl
    · rw [if_neg hc]
      split
      · intro _; rfl
      · split
        · intro _; rfl
        · intro hcontr; exact absurd hcontr (by simp)

/-- Witness for C9 at concrete corrupt and valid states. -/
theorem C9_load_state_totality_witness :
    load_state Option.none defaultConfig = Except.ok 1000 ∧
    load_state (some (.valid (.arr []))) defaultConfig =
      Except.error ArticleNumberError.invalidStateFormat ∧
    load_state (some (.valid (.obj [("other", Json.int 7)]))) defaultConfig =
      Except.error ArticleNumberError.invalidStateFormat ∧
    load_state (some (.valid (.obj [("next", Json.str "x")]))) defaultConfig =
      Except.error ArticleNumberError.invalidNextValue ∧
    load_state (some (.valid (.obj [("next", Json.int (-5))]))) defaultConfig =
      Except.error ArticleNumberError.invalidNextValue ∧
    (allocate 5 (some FileContent.garbage) defaultConfig).2 =
      some FileContent.garbage := by
  obtain ⟨p1, p2, p3, p4, p5, p6, p7, p8⟩ := C9_load_state_totality
  refine ⟨p1, p3 (.arr []) (fun kvs h => Json.noConfusion h),
    p4 [("other", Json.int 7)] rfl,
    p5 [("next", Json.str "x")] (Json.str "x") rfl rfl,
    p6 [("next", Json.int (-5))] (-5) rfl (by norm_num),
    p8 5 (some FileContent.garbage) defaultConfig
      ArticleNumberError.readParseFailed rfl⟩

end ArticleNumber

namespace ChunkedProcessor

/-- Chunk size from config/settings.py: rows per model call. -/
def CHUNK_SIZE : Nat := 50

/-- Serialized-character ceiling from config/settings.py. -/
def MAX_TEXT_CHARS_BEFORE_LLM : Nat := 120000

/-- The consecutive chunks exactly as extraction/chunked_processor.py
computes them: ceiling-divide the row count by the chunk size, and chunk i
is the slice from i times the chunk size of at most chunk-size rows. -/
def chunksOf (chunkSize : Nat) (rows : List α) : List (List α) :=
  (List.range ((rows.length + chunkSize - 1) / chunkSize)).map
    (fun i => (rows.drop (i * chunkSize)).take chunkSize)

/-- Embeds process_excel_in_chunks, lines 222-293. The per-chunk model
call is abstracted as an oracle from a chunk to its product list, and the
serialized length of the sanitized payload as serLen; the input list is
the already sanitized row list (the claim quantifies over sanitized
inputs, and sanitization is a fixed point on them). The result pairs the
list of request payloads issued with the merged product list. -/
def process_excel_in_chunks (oracle : List α → List β) (serLen : List α → Nat)
    (rows : List α) (chunkSize : Nat := CHUNK_SIZE) :
    Except String (List (List α) × List β) :=
  if rows.length = 0 then Except.ok ([], [])
  else if serLen rows > MAX_TEXT_CHARS_BEFORE_LLM then
    Except.error "File content exceeds processing limit"
  else if rows.length ≤ chunkSize then Except.ok ([rows], oracle rows)
  else Except.ok (chunksOf chunkSize rows, ((chunksOf chunkSize rows).map oracle).flatten)

/-- Peeling one chunk off the front. -/
theorem chunksOf_cons (cs : Nat) (hcs : 0 < cs) (rows : List α) (h : rows ≠ []) :
    chunksOf cs rows = rows.take cs :: chunksOf cs (rows.drop cs) := by
  have hn : 1 ≤ rows.length := by
    cases rows with
    | nil => exact absurd rfl h
    | cons x xs => simp
  have hcount : (rows.length + cs - 1) / cs =
      ((rows.drop cs).length + cs - 1) / cs + 1 := by
    rw [List.length_drop]
    rcases le_or_lt rows.length cs with hle | hlt
    · have h1 : rows.length - cs = 0 := by omega
      rw [h1]
      have h2 : rows.length + cs - 1 = (rows.length - 1) + cs := by omega
      rw [h2, Nat.add_div_right _ hcs, Nat.div_eq_of_lt (by omega),
        Nat.div_eq_of_lt (by omega)]
    · have h2 : rows.length + cs - 1 = (rows.length - 1) + cs := by omega
      have h3 : rows.length - cs + cs - 1 = (rows.length - cs - 1) + cs := by omega
      have h4 : rows.length - 1 = (rows.length - cs - 1) + cs := by omega
      rw [h2, Nat.add_div_right _ hcs, h3, Nat.add_div_right _ hcs, h4,
        Nat.add_div_right _ hcs]
  unfold chunksOf
  rw [hcount, List.range_succ_eq_map, List.map_cons, List.map_map]
  congr 1
  · simp
  · apply List.map_congr_left
    intro i _
    simp only [Function.comp_apply]
    rw [List.drop_drop]
    congr 1
    rw [Nat.succ_mul]
    ring

/-- Concatenating the chunks in order restores the original row list: the
chunked path preserves chunk and row order. -/
theorem chunksOf_join (cs : Nat) (hcs : 0 < cs) :
    ∀ (n : Nat) (rows : List α), rows.length ≤ n → (chunksOf cs rows).flatten = rows := by
  intro n
  induction n with
  | zero =>
    intro rows hlen
    have : rows = [] := List.eq_nil_of_length_eq_zero (by omega)
    subst this
    simp [chunksOf, Nat.div_eq_of_lt (by omega : 0 + cs - 1 < cs)]
  | succ n ih =>
    intro rows hlen
    by_cases h : rows = []
    · subst h
      simp [chunksOf, Nat.div_eq_of_lt (by omega : 0 + cs - 1 < cs)]
    · rw [chunksOf_cons cs hcs rows h, List.flatten_cons,
        ih (rows.drop cs) (by simp [List.length_drop]; omega)]
      exact List.take_append_drop cs rows

/-- Every chunk holds at most the chunk size of rows. -/
theorem chunksOf_le (cs : Nat) (rows : List α) :
    ∀ c ∈ chunksOf cs rows, c.length ≤ cs := by
  intro c hc
  unfold chunksOf at hc
  obtain ⟨i, _, rfl⟩ := List.mem_map.mp hc
  exact List.length_take_le _ _

/-- C6: for every sanitized row list within the 120000-character ceiling,
treating each model call as an oracle: an empty list yields an empty
result with no request; at most 50 rows yield exactly one request with
the whole payload; more than 50 rows are split into consecutive chunks of
at most 50 whose concatenation restores the input, one request per chunk,
and the result is the concatenation of the per-chunk product lists in
chunk order; in particular 120 rows produce exactly 3 requests of sizes
50, 50 and 20. -/
theorem C6_process_excel_in_chunks {α β : Type} (oracle : List α → List β)
    (serLen : List α → Nat) (rows : List α)
    (hsize : serLen rows ≤ MAX_TEXT_CHARS_BEFORE_LLM) :
    (rows = [] → process_excel_in_chunks oracle serLen rows = Except.ok ([], [])) ∧
    (rows ≠ [] → rows.length ≤ 50 →
      process_excel_in_chunks oracle serLen rows = Except.ok ([rows], oracle rows)) ∧
    (50 < rows.length →
      process_excel_in_chunks oracle serLen rows =
        Except.ok (chunksOf 50 rows, ((chunksOf 50 rows).map oracle).flatten) ∧
      (chunksOf 50 rows).flatten = rows ∧
      (∀ c ∈ chunksOf 50 rows, c.length ≤ 50)) ∧
    (rows.length = 120 →
      (chunksOf 50 rows).length = 3 ∧
      (chunksOf 50 rows).map List.length = [50, 50, 20]) := by
  refine ⟨?_, ?_, ?_, ?_⟩
  · intro h
    subst h
    rfl
  · intro hne hle
    have h0 : ¬rows.length = 0 := by
      cases rows with
      | nil => exact absurd rfl hne
      | cons x xs => simp
    simp [process_excel_in_chunks, h0, not_lt.mpr hsize, hle, CHUNK_SIZE]
  · intro hgt
    refine ⟨?_, chunksOf_join 50 (by norm_num) rows.length rows le_rfl,
      chunksOf_le 50 rows⟩
    have h0 : ¬rows.length = 0 := by omega
    have h1 : ¬rows.length ≤ 50 := by omega
    simp [process_excel_in_chunks, h0, not_lt.mpr hsize, h1, CHUNK_SIZE]
  · intro h120
    have hcount : (rows.length + 50 - 1) / 50 = 3 := by rw [h120]
    constructor
    · simp only [chunksOf, hcount]
      simp
    · simp only [chunksOf, hcount]
      simp [List.range_succ, List.length_take, List.length_drop, h120]

/-- Witness for C6 on a concrete 120-row list with the identity oracle. -/
theorem C6_process_excel_in_chunks_witness :
    (List.range 120).length = 120 ∧
    (chunksOf 50 (List.range 120)).length = 3 ∧
    (chunksOf 50 (List.range 120)).map List.length = [50, 50, 20] ∧
    (chunksOf 50 (List.range 120)).flatten = List.range 120 ∧
    process_excel_in_chunks (fun l => l) List.length (List.range 120) =
      Except.ok (chunksOf 50 (List.range 120),
        ((chunksOf 50 (List.range 120)).map (fun l => l)).flatten) := by
  have h := C6_process_excel_in_chunks (fun l : List Nat => l) List.length
    (List.range 120) (by simp [MAX_TEXT_CHARS_BEFORE_LLM])
  obtain ⟨-, -, h3, h4⟩ := h
  obtain ⟨hp, hj, -⟩ := h3 (by simp)
  obtain ⟨hl, hm⟩ := h4 (by simp)
  exact ⟨by simp, hl, hm, hj, hp⟩

end ChunkedProcessor

namespace ExcelReader

/-- Raw value of a spreadsheet cell as openpyxl delivers it with
data_only: absent (None), a string, or a number (integers suffice for the
claims proved here). -/
inductive CellVal where
  | none
  | str (s : String)
  | int (n : Int)
deriving DecidableEq, Repr

/-- Python str() on a cell value, as applied to non-None header cells. -/
def pyStr (v : CellVal) : String :=
  match v with
  | .none => "None"
  | .str s => s
  | .int n => toString n

/-- A worksheet: row-major cell grid, Excel row 1 at index 0. -/
def Worksheet := List (List CellVal)

/-- openpyxl max_column: the width of the sheet dimension, the maximum
row length of the grid. -/
def max_column (ws : Worksheet) : Nat :=
  ws.foldr (fun r m => max r.length m) 0

/-- openpyxl max_row. -/
def max_row (ws : Worksheet) : Nat := ws.length

/-- ws.cell(row, column).value with zero-based indices: absent cells read
as None. -/
def cellAt (ws : Worksheet) (r c : Nat) : CellVal :=
  ((ws.getD r []).getD c CellVal.none)

/-- Embeds the header extraction of input_readers/excel.py read_excel,
lines 31-35: for each column of row 1, a None cell becomes the positional
placeholder col_c (1-based), any other cell becomes str(value).strip(). -/
def headers (ws : Worksheet) : List String :=
  (List.range (max_column ws)).map (fun c =>
    match cellAt ws 0 c with
    | CellVal.none => "col_" ++ toString (c + 1)
    | v => PackagingMath.pyStrip (pyStr v))

/-- The cell values of data row r under the header columns. -/
def rowCells (ws : Worksheet) (r : Nat) : List CellVal :=
  (List.range (headers ws).length).map (fun c => cellAt ws r c)

/-- The is_empty flag of the source loop: every cell is None or the empty
string (value not in (None, "")). -/
def rowEmpty (ws : Worksheet) (r : Nat) : Bool :=
  (rowCells ws r).all (fun v => v == CellVal.none || v == CellVal.str "")

/-- Embeds read_excel, lines 11-53: iterate data rows 2..max_row, build
the mapping keyed by header text in column order (modelled as the
association list the loop writes), and keep only rows that are not fully
empty. -/
def read_excel (ws : Worksheet) : List (List (String × CellVal)) :=
  (List.range (max_row ws - 1)).foldl (fun acc i =>
    if rowEmpty ws (i + 1) then acc
    else acc ++ [(headers ws).zip (rowCells ws (i + 1))]) []

/-- The accumulating loop is a filter and map over the data row indices. -/
theorem foldl_keep_eq (p : Nat → Bool) (f : Nat → List (String × CellVal))
    (l : List Nat) :
    ∀ acc, l.foldl (fun acc i => if p i then acc else acc ++ [f i]) acc =
      acc ++ (l.filter (fun i => !p i)).map f := by
  induction l with
  | nil => intro acc; simp
  | cons x xs ih =>
    intro acc
    by_cases hx : p x
    · simp [List.foldl_cons, hx, ih]
    · simp [List.foldl_cons, hx, ih]

/-- C7 counterexample: a header cell reading "Name " (trailing blank) is
stripped to "Name", so the header text is not left exactly as read. -/
theorem C7_counterexample_header_stripped :
    read_excel [[CellVal.str "Name "], [CellVal.str "x"]] =
      [[("Name", CellVal.str "x")]] ∧
    ("Name" : String) ≠ "Name " := by
  constructor
  · rfl
  · decide

/-- C7 amended: read_excel treats row 1 as headers; an absent (None)
header cell becomes the positional placeholder col_c, and every other
header cell becomes its text converted with str() and stripped of leading
and trailing whitespace (not kept exactly as read); each subsequent row
becomes a mapping from those header texts to the raw cell values
preserved verbatim, and rows in which every cell is None or the empty
string are omitted. -/
theorem C7_read_excel_amended (ws : Worksheet) :
    (∀ c, c < max_column ws → cellAt ws 0 c = CellVal.none →
      (headers ws).get? c = some ("col_" ++ toString (c + 1))) ∧
    (∀ c v, c < max_column ws → cellAt ws 0 c = v → v ≠ CellVal.none →
      (headers ws).get? c = some (PackagingMath.pyStrip (pyStr v))) ∧
    read_excel ws =
      ((List.range (max_row ws - 1)).filter (fun i => !rowEmpty ws (i + 1))).map
        (fun i => (headers ws).zip (rowCells ws (i + 1))) := by
  refine ⟨?_, ?_, ?_⟩
  · intro c hc h0
    unfold headers
    rw [List.get?_map, List.get?_range hc]
    simp [h0]
  · intro c v hc h0 hne
    unfold headers
    rw [List.get?_map, List.get?_range hc]
    cases v with
    | none => exact absurd rfl hne
    | str s => simp [h0]
    | int n => simp [h0]
  · unfold read_excel
    rw [foldl_keep_eq]
    simp

/-- Witness for C7 on a concrete worksheet with an absent header cell and
a fully blank data row: the placeholder header appears, the blank row is
skipped, and raw values survive. -/
theorem C7_read_excel_amended_witness :
    (headers [[CellVal.str "A", CellVal.none],
      [CellVal.none, CellVal.str ""], [CellVal.int 5, CellVal.str "y"]]).get? 1 =
      some "col_2" ∧
    read_excel [[CellVal.str "A", CellVal.none],
      [CellVal.none, CellVal.str ""], [CellVal.int 5, CellVal.str "y"]] =
      [[("A", CellVal.int 5), ("col_2", CellVal.str "y")]] := by
  obtain ⟨h1, -, h3⟩ := C7_read_excel_amended
    [[CellVal.str "A", CellVal.none],
      [CellVal.none, CellVal.str ""], [CellVal.int 5, CellVal.str "y"]]
  exact ⟨h1 1 (by decide) (by decide), h3.trans (by decide)⟩

end ExcelReader

namespace ExcelWriter

/-- Border line styles used by the totals row of writers/excel_writer.py:
absent, thin or thick. -/
inductive BorderStyle where
  | bnone
  | thin
  | thick
deriving DecidableEq, Repr

/-- The openpyxl cell state tracked for the totals row: value (a formula
string or empty), number format, font bold and size, fill colour, the
four border sides, and centering. -/
structure CellFormat where
  value : Option String := Option.none
  numFmt : Option String := Option.none
  bold : Bool := false
  fontSize : Option Nat := Option.none
  fill : Option String := Option.none
  bTop : BorderStyle := BorderStyle.bnone
  bBottom : BorderStyle := BorderStyle.bnone
  bLeft : BorderStyle := BorderStyle.bnone
  bRight : BorderStyle := BorderStyle.bnone
  centered : Bool := false
deriving DecidableEq, Repr

/-- A fresh untouched cell. -/
def blankCell : CellFormat := {}

/-- openpyxl get_column_letter: bijective base 26, A for 1. -/
def get_column_letter_aux : Nat → Nat → String
  | 0, _ => ""
  | fuel + 1, n =>
    if n = 0 then ""
    else get_column_letter_aux fuel ((n - 1) / 26) ++
      String.mk [Char.ofNat (65 + (n - 1) % 26)]

def get_column_letter (n : Nat) : String := get_column_letter_aux n n

/-- The header to excel column map of write_rows_to_xlsx, lines 96-98: a
Python dict built in header order, so a duplicate header keeps its last
column; columns start at B, index 2. -/
def header_to_excel_col (hs : List String) (h : String) : Option Nat :=
  ((hs.enum.filter (fun p => p.2 = h)).getLast?).map (fun p => 2 + p.1)

/-- The SUM formula written into a totals cell of column col over the full
data range: first data row 3 to last data row 2 + nrows. -/
def sumFormula (col : Nat) (nrows : Nat) : String :=
  "=SUM(" ++ get_column_letter col ++ toString (3 : Nat) ++ ":" ++
    get_column_letter col ++ toString (2 + nrows) ++ ")"

/-- One totals cell as the first totals pass writes it, lines 197-230: an
availability column gets the SUM formula, one-decimal format, centering,
the tan fill and a border with no top line; every other column gets an
empty value and the same topless border. -/
def pass1Cell (i : Nat) (h : String) (nrows : Nat) : CellFormat :=
  if h = "Availability/Cartons" ∨ h = "Availability/Pieces" ∨
      h = "Availability/Pallets" then
    { value := some (sumFormula (2 + i) nrows)
      numFmt := some "0.0"
      centered := true
      fill := some "F8F0D9"
      bLeft := BorderStyle.thin
      bRight := BorderStyle.thin
      bTop := BorderStyle.bnone
      bBottom := BorderStyle.thin }
  else
    { value := Option.none
      bLeft := BorderStyle.thin
      bRight := BorderStyle.thin
      bTop := BorderStyle.bnone
      bBottom := BorderStyle.thin }

/-- Embeds the first totals pass, lines 185-230, with its guard. -/
def pass1 (hs : List String) (nrows : Nat) (cells : List CellFormat) :
    List CellFormat :=
  if nrows ≠ 0 ∧ (header_to_excel_col hs "Availability/Cartons").isSome ∧
      (header_to_excel_col hs "Availability/Pieces").isSome ∧
      (header_to_excel_col hs "Availability/Pallets").isSome then
    hs.enum.map (fun p => pass1Cell p.1 p.2 nrows)
  else cells

/-- The border-and-centering restyle the second totals pass applies to
every column of the totals row, lines 237-247: thick top, thin bottom,
thick outer edges. -/
def pass2Style (ncols : Nat) (i : Nat) (c : CellFormat) : CellFormat :=
  { c with
    centered := true
    bTop := BorderStyle.thick
    bBottom := BorderStyle.thin
    bLeft := if 2 + i = 2 then BorderStyle.thick else BorderStyle.thin
    bRight := if 2 + i = 2 + ncols - 1 then BorderStyle.thick else BorderStyle.thin }

/-- The overwrite of one availability totals cell by the second pass,
lines 252-277: re-stamp the SUM formula and format and make the font bold
size 10, keeping the border from the restyle loop and the fill from the
first pass. -/
def setTotal (cells : List CellFormat) (col : Nat) (nrows : Nat) :
    List CellFormat :=
  cells.set (col - 2)
    { cells.getD (col - 2) blankCell with
      value := some (sumFormula col nrows)
      numFmt := some "0.0"
      centered := true
      bold := true
      fontSize := some 10 }

/-- Embeds the second totals pass, lines 232-277, with its guard (which
does not test the pieces column; when the pieces column were absent the
source would raise on cell(column=None), a case outside the claims, which
quantify over sheets containing all three availability columns). -/
def pass2 (hs : List String) (nrows : Nat) (cells : List CellFormat) :
    List CellFormat :=
  if (header_to_excel_col hs "Availability/Cartons").isSome ∧
      (header_to_excel_col hs "Availability/Pallets").isSome ∧ 0 < nrows then
    let base := (cells.enum).map (fun p => pass2Style hs.length p.1 p.2)
    let base2 := match header_to_excel_col hs "Availability/Cartons" with
      | some cc => setTotal base cc nrows
      | Option.none => base
    let base3 := match header_to_excel_col hs "Availability/Pieces" with
      | some cp => setTotal base2 cp nrows
      | Option.none => base2
    match header_to_excel_col hs "Availability/Pallets" with
    | some cl => setTotal base3 cl nrows
    | Option.none => base3
  else cells

/-- The totals row of the written sheet: both passes applied in order to
the fresh row below the data. -/
def totalsRowCells (hs : List String) (nrows : Nat) : List CellFormat :=
  pass2 hs nrows (pass1 hs nrows (hs.map (fun _ => blankCell)))

/-- The 1-based sheet row of the totals row: one below the last data row
(header at row 2, data rows 3 to 2 + nrows). -/
def totals_row_index (nrows : Nat) : Nat := (2 + nrows) + 1

end ExcelWriter

namespace ExcelWriter

/-- C8 counterexample: on a sheet with the three availability columns and
3 data rows, the final cartons totals cell carries a thick top border (the
second pass overwrites the borderless top of the first pass), so the
claimed no-top-border styling does not hold, and the two passes do not
have identical effect. -/
theorem C8_counterexample_top_border :
    ((totalsRowCells ["Product Description", "Availability/Cartons",
        "Availability/Pieces", "Availability/Pallets"] 3).getD 1 blankCell).bTop =
      BorderStyle.thick ∧
    BorderStyle.thick ≠ BorderStyle.bnone ∧
    pass1 ["Product Description", "Availability/Cartons",
        "Availability/Pieces", "Availability/Pallets"] 3
      (["Product Description", "Availability/Cartons",
        "Availability/Pieces", "Availability/Pallets"].map (fun _ => blankCell)) ≠
      totalsRowCells ["Product Description", "Availability/Cartons",
        "Availability/Pieces", "Availability/Pallets"] 3 := by
  refine ⟨?_, ?_, ?_⟩ <;> decide

end ExcelWriter

namespace ExcelWriter

/-- A successful header lookup points at a column of the header list
holding that header. -/
theorem header_to_excel_col_spec (hs : List String) (name : String) (c : Nat)
    (h : header_to_excel_col hs name = some c) :
    ∃ j, c = 2 + j ∧ hs.get? j = some name := by
  unfold header_to_excel_col at h
  obtain ⟨p, hp, rfl⟩ := Option.map_eq_some'.mp h
  have hmem : p ∈ hs.enum.filter (fun q => q.2 = name) :=
    List.mem_of_mem_getLast? (Option.mem_def.mpr hp)
  rw [List.mem_filter] at hmem
  obtain ⟨hen, heq⟩ := hmem
  have hget := List.mem_enum_iff_get?.mp hen
  refine ⟨p.1, rfl, ?_⟩
  rw [← of_decide_eq_true heq]
  exact hget

/-- The first pass writes pass1Cell into every column when its guard
holds. -/
theorem pass1_get? (hs : List String) (nrows : Nat) (cells : List CellFormat)
    (i : Nat) (h2 : String) (hh : hs.get? i = some h2)
    (hg : nrows ≠ 0 ∧ (header_to_excel_col hs "Availability/Cartons").isSome ∧
      (header_to_excel_col hs "Availability/Pieces").isSome ∧
      (header_to_excel_col hs "Availability/Pallets").isSome) :
    (pass1 hs nrows cells).get? i = some (pass1Cell i h2 nrows) := by
  unfold pass1
  rw [if_pos hg, List.get?_map, List.enum_get?, hh]
  rfl

/-- Length bookkeeping for the passes. -/
theorem pass1_length (hs : List String) (nrows : Nat) (cells : List CellFormat)
    (hc : cells.length = hs.length) : (pass1 hs nrows cells).length = hs.length := by
  unfold pass1
  split_ifs <;> simp [hc]

theorem setTotal_length (cells : List CellFormat) (col nrows : Nat) :
    (setTotal cells col nrows).length = cells.length := by
  simp [setTotal]

theorem setTotal_get?_ne (cells : List CellFormat) (col nrows j : Nat)
    (h : col - 2 ≠ j) : (setTotal cells col nrows).get? j = cells.get? j := by
  unfold setTotal
  exact List.get?_set_ne _ _ h

theorem setTotal_get?_eq (cells : List CellFormat) (col nrows : Nat)
    (h : col - 2 < cells.length) :
    (setTotal cells col nrows).get? (col - 2) =
      some { cells.getD (col - 2) blankCell with
        value := some (sumFormula col nrows)
        numFmt := some "0.0"
        centered := true
        bold := true
        fontSize := some 10 } := by
  unfold setTotal
  exact List.get?_set_eq_of_lt _ h

/-- C8 amended: on a non-empty sheet whose headers contain the three
availability columns, the totals row written by the two passes has, in
each availability column, a cell holding the SUM formula over the full
data range, the one-decimal format, bold font, the distinct fill, and a
thick top border (the second pass overwrites the borderless top of the
first pass and adds the bold font, so the two passes do not have
identical effect); every other column of the totals row is left blank;
and the totals row sits immediately below the last data row. -/
theorem C8_totals_row_amended (hs : List String) (nrows : Nat) (cc cp cl : Nat)
    (hcc : header_to_excel_col hs "Availability/Cartons" = some cc)
    (hcp : header_to_excel_col hs "Availability/Pieces" = some cp)
    (hcl : header_to_excel_col hs "Availability/Pallets" = some cl)
    (hn : 0 < nrows) :
    totals_row_index nrows = (2 + nrows) + 1 ∧
    (∀ col, col = cc ∨ col = cp ∨ col = cl →
      ∃ cell, (totalsRowCells hs nrows).get? (col - 2) = some cell ∧
        cell.value = some (sumFormula col nrows) ∧
        cell.numFmt = some "0.0" ∧ cell.bold = true ∧
        cell.fill = some "F8F0D9" ∧ cell.bTop = BorderStyle.thick) ∧
    (∀ i h2, hs.get? i = some h2 → h2 ≠ "Availability/Cartons" →
      h2 ≠ "Availability/Pieces" → h2 ≠ "Availability/Pallets" →
      ∃ cell, (totalsRowCells hs nrows).get? i = some cell ∧
        cell.value = Option.none ∧ cell.bold = false) := by
  obtain ⟨jc, rfl, hjc⟩ := header_to_excel_col_spec hs _ cc hcc
  obtain ⟨jp, rfl, hjp⟩ := header_to_excel_col_spec hs _ cp hcp
  obtain ⟨jl, rfl, hjl⟩ := header_to_excel_col_spec hs _ cl hcl
  have e1 : (2 : Nat) + jc - 2 = jc := by omega
  have e2 : (2 : Nat) + jp - 2 = jp := by omega
  have e3 : (2 : Nat) + jl - 2 = jl := by omega
  have hjclen : jc < hs.length := (List.get?_eq_some.mp hjc).1
  have hjplen : jp < hs.length := (List.get?_eq_some.mp hjp).1
  have hjllen : jl < hs.length := (List.get?_eq_some.mp hjl).1
  have hne_cp : jc ≠ jp := by
    intro h
    rw [h, hjp] at hjc
    simp at hjc
  have hne_cl : jc ≠ jl := by
    intro h
    rw [h, hjl] at hjc
    simp at hjc
  have hne_pl : jp ≠ jl := by
    intro h
    rw [h, hjl] at hjp
    simp at hjp
  have hg1 : nrows ≠ 0 ∧ (header_to_excel_col hs "Availability/Cartons").isSome ∧
      (header_to_excel_col hs "Availability/Pieces").isSome ∧
      (header_to_excel_col hs "Availability/Pallets").isSome :=
    ⟨hn.ne', by rw [hcc]; rfl, by rw [hcp]; rfl, by rw [hcl]; rfl⟩
  have hg2 : (header_to_excel_col hs "Availability/Cartons").isSome ∧
      (header_to_excel_col hs "Availability/Pallets").isSome ∧ 0 < nrows :=
    ⟨by rw [hcc]; rfl, by rw [hcl]; rfl, hn⟩
  have hPlen : (pass1 hs nrows (hs.map (fun _ => blankCell))).length = hs.length :=
    pass1_length hs nrows _ (by simp)
  have hBget : ∀ i h2, hs.get? i = some h2 →
      ((pass1 hs nrows (hs.map (fun _ => blankCell))).enum.map
        (fun p => pass2Style hs.length p.1 p.2)).get? i =
        some (pass2Style hs.length i (pass1Cell i h2 nrows)) := by
    intro i h2 hh
    rw [List.get?_map, List.enum_get?, pass1_get? hs nrows _ i h2 hh hg1]
    rfl
  have hBlen : ((pass1 hs nrows (hs.map (fun _ => blankCell))).enum.map
      (fun p => pass2Style hs.length p.1 p.2)).length = hs.length := by
    simp only [List.length_map, List.enum_length]
    exact hPlen
  have hBgetD : ∀ i h2, hs.get? i = some h2 →
      ((pass1 hs nrows (hs.map (fun _ => blankCell))).enum.map
        (fun p => pass2Style hs.length p.1 p.2)).getD i blankCell =
        pass2Style hs.length i (pass1Cell i h2 nrows) := by
    intro i h2 hh
    show (((pass1 hs nrows (hs.map (fun _ => blankCell))).enum.map
      (fun p => pass2Style hs.length p.1 p.2)).get? i).getD blankCell = _
    rw [hBget i h2 hh]
    rfl
  have hT : totalsRowCells hs nrows =
      setTotal (setTotal (setTotal
        ((pass1 hs nrows (hs.map (fun _ => blankCell))).enum.map
          (fun p => pass2Style hs.length p.1 p.2)) (2 + jc) nrows)
        (2 + jp) nrows) (2 + jl) nrows := by
    unfold totalsRowCells pass2
    rw [if_pos hg2, hcc, hcp, hcl]
  refine ⟨rfl, ?_, ?_⟩
  · intro col hcol
    rcases hcol with rfl | rfl | rfl
    · rw [hT, e1,
        setTotal_get?_ne _ _ _ _ (by rw [e3]; exact fun h => hne_cl h.symm),
        setTotal_get?_ne _ _ _ _ (by rw [e2]; exact fun h => hne_cp h.symm)]
      have := setTotal_get?_eq
        ((pass1 hs nrows (hs.map (fun _ => blankCell))).enum.map
          (fun p => pass2Style hs.length p.1 p.2)) (2 + jc) nrows
        (by rw [e1, hBlen]; exact hjclen)
      rw [e1] at this
      rw [this, hBgetD jc _ hjc]
      refine ⟨_, rfl, rfl, rfl, rfl, ?_, rfl⟩
      simp [pass2Style, pass1Cell]
    · rw [hT, e2,
        setTotal_get?_ne _ _ _ _ (by rw [e3]; exact fun h => hne_pl h.symm)]
      have hlen2 : (2 : Nat) + jp - 2 <
          (setTotal ((pass1 hs nrows (hs.map (fun _ => blankCell))).enum.map
            (fun p => pass2Style hs.length p.1 p.2)) (2 + jc) nrows).length := by
        rw [e2, setTotal_length, hBlen]; exact hjplen
      have := setTotal_get?_eq _ (2 + jp) nrows hlen2
      rw [e2] at this
      rw [this]
      have hD : (setTotal ((pass1 hs nrows (hs.map (fun _ => blankCell))).enum.map
          (fun p => pass2Style hs.length p.1 p.2)) (2 + jc) nrows).getD jp blankCell =
          pass2Style hs.length jp (pass1Cell jp "Availability/Pieces" nrows) := by
        show ((setTotal _ (2 + jc) nrows).get? jp).getD blankCell = _
        rw [setTotal_get?_ne _ _ _ _ (by rw [e1]; exact hne_cp), hBget jp _ hjp]
        rfl
      rw [hD]
      refine ⟨_, rfl, rfl, rfl, rfl, ?_, rfl⟩
      simp [pass2Style, pass1Cell]
    · have hlen3 : (2 : Nat) + jl - 2 <
          (setTotal (setTotal ((pass1 hs nrows (hs.map (fun _ => blankCell))).enum.map
            (fun p => pass2Style hs.length p.1 p.2)) (2 + jc) nrows) (2 + jp) nrows).length := by
        rw [e3, setTotal_length, setTotal_length, hBlen]; exact hjllen
      rw [hT, e3]
      have := setTotal_get?_eq _ (2 + jl) nrows hlen3
      rw [e3] at this
      rw [this]
      have hD : (setTotal (setTotal ((pass1 hs nrows (hs.map (fun _ => blankCell))).enum.map
          (fun p => pass2Style hs.length p.1 p.2)) (2 + jc) nrows) (2 + jp) nrows).getD
            jl blankCell =
          pass2Style hs.length jl (pass1Cell jl "Availability/Pallets" nrows) := by
        show ((setTotal (setTotal _ (2 + jc) nrows) (2 + jp) nrows).get? jl).getD blankCell = _
        rw [setTotal_get?_ne _ _ _ _ (by rw [e2]; exact hne_pl),
          setTotal_get?_ne _ _ _ _ (by rw [e1]; exact hne_cl), hBget jl _ hjl]
        rfl
      rw [hD]
      refine ⟨_, rfl, rfl, rfl, rfl, ?_, rfl⟩
      simp [pass2Style, pass1Cell]
  · intro i h2 hh hne1 hne2 hne3
    have hic : jc ≠ i := by
      intro h
      rw [← h, hjc] at hh
      exact hne1 (Option.some.inj hh).symm
    have hip : jp ≠ i := by
      intro h
      rw [← h, hjp] at hh
      exact hne2 (Option.some.inj hh).symm
    have hil : jl ≠ i := by
      intro h
      rw [← h, hjl] at hh
      exact hne3 (Option.some.inj hh).symm
    rw [hT,
      setTotal_get?_ne _ _ _ _ (by rw [e3]; exact hil),
      setTotal_get?_ne _ _ _ _ (by rw [e2]; exact hip),
      setTotal_get?_ne _ _ _ _ (by rw [e1]; exact hic),
      hBget i h2 hh]
    refine ⟨_, rfl, ?_, ?_⟩
    · simp [pass2Style, pass1Cell, hne1, hne2, hne3]
    · simp [pass2Style, pass1Cell, hne1, hne2, hne3]

/-- Witness for C8 on the concrete 4-column Food-style header list with 3
data rows. -/
theorem C8_totals_row_amended_witness :
    header_to_excel_col ["Product Description", "Availability/Cartons",
      "Availability/Pieces", "Availability/Pallets"] "Availability/Cartons" = some 3 ∧
    (∃ cell, (totalsRowCells ["Product Description", "Availability/Cartons",
        "Availability/Pieces", "Availability/Pallets"] 3).get? (3 - 2) = some cell ∧
      cell.value = some (sumFormula 3 3) ∧
      cell.numFmt = some "0.0" ∧ cell.bold = true ∧
      cell.fill = some "F8F0D9" ∧ cell.bTop = BorderStyle.thick) ∧
    (∃ cell, (totalsRowCells ["Product Description", "Availability/Cartons",
        "Availability/Pieces", "Availability/Pallets"] 3).get? 0 = some cell ∧
      cell.value = Option.none ∧ cell.bold = false) ∧
    sumFormula 3 3 = "=SUM(C3:C5)" := by
  obtain ⟨-, hav, hblank⟩ := C8_totals_row_amended
    ["Product Description", "Availability/Cartons",
      "Availability/Pieces", "Availability/Pallets"] 3 3 4 5
    (by decide) (by decide) (by decide) (by norm_num)
  exact ⟨by decide, hav 3 (Or.inl rfl),
    hblank 0 "Product Description" (by decide) (by decide) (by decide) (by decide),
    by decide⟩

end ExcelWriter

namespace Normalization

-- fields/normalization.py: normalize_content and normalize_languages.

open PackagingMath (isPySpace pyStrip)

/-- Python str.upper modelled per character (the inputs handled by the
normalization module are ASCII). -/
def pyUpper (s : String) : String := String.mk (s.data.map Char.toUpper)

/-- The separator characters of the language-splitting regex class. -/
def isSepChar (c : Char) : Bool :=
  c = ',' || c = ';' || c = '/' || c = '|' || c = '\\'

/-- Length of the regex match at the head of cs, if any:
alternative 1 is whitespace-run, separator char, whitespace-run; alternative
2 is a run of at least two whitespace characters. Backtracking never changes
these: the run before a separator is all whitespace, so only the character
after the maximal run can be the separator. -/
def sepMatchLen (cs : List Char) : Option Nat :=
  let w := (cs.takeWhile isPySpace).length
  match cs.drop w with
  | c :: rest =>
    if isSepChar c then some (w + 1 + (rest.takeWhile isPySpace).length)
    else if 2 ≤ w then some w else Option.none
  | [] => if 2 ≤ w then some w else Option.none

/-- re.split scanning loop: at each position try the separator pattern; on a
match emit the accumulated field, otherwise keep the character. Fuel bounds
the recursion; every match consumes at least one character. -/
def splitAux : Nat → List Char → List Char → List (List Char)
  | 0, acc, _ => [acc.reverse]
  | Nat.succ fuel, acc, cs =>
    match cs with
    | [] => [acc.reverse]
    | c :: rest =>
      match sepMatchLen (c :: rest) with
      | some n => acc.reverse :: splitAux fuel [] ((c :: rest).drop n)
      | Option.none => splitAux fuel (c :: acc) rest

/-- re.split of normalize_languages on a string. -/
def pySplitLangs (s : String) : List String :=
  (splitAux (s.data.length + 1) [] s.data).map String.mk

/-- The comprehension [p.strip() for p in parts if p and p.strip()]. -/
def langParts (s : String) : List String :=
  (pySplitLangs s).filterMap
    (fun p => if p ≠ "" ∧ pyStrip p ≠ "" then some (pyStrip p) else Option.none)

/-- Duplicate removal preserving first occurrences (the seen-set loop). -/
def dedupFirst (l : List String) : List String :=
  l.foldl (fun acc p => if p ∈ acc then acc else acc ++ [p]) []

/-- Slash join of a token list, the "/".join calls of the source. -/
def joinSlash : List String → String
  | [] => ""
  | t :: rest =>
    match rest with
    | [] => t
    | _ :: _ => t ++ "/" ++ joinSlash rest

/-- The de-duplicated token list normalize_languages computes for input s. -/
def langUniq (s : String) : List String :=
  dedupFirst (langParts (pyUpper (pyStrip s)))

/-- Embeds fields/normalization.py normalize_languages. The two stdlib
facilities it uses are passed as parameters: md5seed is
int(hashlib.md5(-).hexdigest(), 16) on the utf-8 bytes, and sh seed l is the
list produced by random.Random(seed).shuffle(l); both are deterministic
functions of their arguments in Python. -/
def normalize_languages (md5seed : String → Nat)
    (sh : Nat → List String → List String) : Option String → Option String
  | Option.none => Option.none
  | some v =>
    if pyStrip v = "" then Option.none
    else if langParts (pyUpper (pyStrip v)) = [] then Option.none
    else if langUniq v = [] then Option.none
    else if (langUniq v).length = 1 then some ((langUniq v).headD "")
    else some (joinSlash (sh (md5seed (joinSlash (langUniq v))) (langUniq v)))

/-- Python regex word character over the inputs in scope: letter, digit or
underscore. -/
def isWordChar (c : Char) : Bool := c.isAlphanum || c = '_'

/-- Matches the tail \s*UNIT\b of a substitution pattern at the head of cs:
the maximal whitespace run, the unit literal, then a word boundary. Returns
the remaining characters. Shortening the whitespace run can never help the
literal match, so the maximal run is the only candidate. -/
def matchTail (unit : List Char) (cs : List Char) : Option (List Char) :=
  let ws := cs.dropWhile isPySpace
  if ws.take unit.length = unit then
    match ws.drop unit.length with
    | [] => some []
    | c :: rest => if isWordChar c then Option.none else some (c :: rest)
  else Option.none

/-- Matches (\d+(?:[.,]\d+)?)\s*UNIT\b at the head of cs, returning the
captured group and the remainder. The digit runs are maximal (a shorter run
leaves a digit next, which can match neither [.,], whitespace nor the unit
letter); the optional fraction is tried first and dropped on failure,
exactly the regex backtracking order. -/
def matchNumUnit (unit : List Char) (cs : List Char) :
    Option (List Char × List Char) :=
  let d1 := cs.takeWhile Char.isDigit
  if d1 = [] then Option.none else
  let r1 := cs.drop d1.length
  let viaA : Option (List Char × List Char) :=
    match r1 with
    | c :: r2 =>
      if c = '.' ∨ c = ',' then
        let d2 := r2.takeWhile Char.isDigit
        if d2 = [] then Option.none
        else match matchTail unit (r2.drop d2.length) with
          | some rest => some (d1 ++ c :: d2, rest)
          | Option.none => Option.none
      else Option.none
    | [] => Option.none
  match viaA with
  | some res => some res
  | Option.none =>
    match matchTail unit r1 with
    | some rest => some (d1, rest)
    | Option.none => Option.none

/-- re.sub scanning loop for a pattern \b?(\d+(?:[.,]\d+)?)\s*UNIT\b with
replacement "\1 SHORT": at each position (leading word boundary permitting,
when leadB is set) try the match; on success emit the group, a space and the
short unit and resume after the match, else keep the character. prev is the
original character before the current position. -/
def subAux (unit short : List Char) (leadB : Bool) :
    Nat → Option Char → List Char → List Char
  | 0, _, cs => cs
  | Nat.succ fuel, prev, cs =>
    match cs with
    | [] => []
    | c :: rest =>
      let boundaryOk :=
        if leadB then
          match prev with
          | Option.none => true
          | some p => ¬ isWordChar p
        else true
      if boundaryOk then
        match matchNumUnit unit (c :: rest) with
        | some (g, rem) =>
          g ++ ' ' :: short ++ subAux unit short leadB fuel
            (some ((unit.getLast?).getD ' ')) rem
        | Option.none => c :: subAux unit short leadB fuel (some c) rest
      else c :: subAux unit short leadB fuel (some c) rest

/-- One re.sub pass of normalize_content. -/
def pySubUnit (unit short : String) (leadB : Bool) (s : String) : String :=
  String.mk (subAux unit.data short.data leadB (s.data.length + 1) Option.none s.data)

/-- Matches the tail of the search pattern, \s+([A-Z]+)\b (or \s* in the
fallback), at the head of cs, returning the captured unit. The letter run is
maximal: any shorter run is followed by an uppercase letter, a word
character, so the boundary fails there too. -/
def searchTail (reqSpace : Bool) (cs : List Char) : Option (List Char) :=
  let ws := cs.takeWhile isPySpace
  if reqSpace ∧ ws = [] then Option.none else
  let r := cs.drop ws.length
  let u := r.takeWhile (fun c => 'A' ≤ c ∧ c ≤ 'Z')
  if u = [] then Option.none else
  match r.drop u.length with
  | [] => some u
  | c :: _ => if isWordChar c then Option.none else some u

/-- Matches (\d+(?:[.,]\d+)?)\s+([A-Z]+)\b (or \s*) at the head of cs. -/
def searchAt (reqSpace : Bool) (cs : List Char) :
    Option (List Char × List Char) :=
  let d1 := cs.takeWhile Char.isDigit
  if d1 = [] then Option.none else
  let r1 := cs.drop d1.length
  let viaA : Option (List Char × List Char) :=
    match r1 with
    | c :: r2 =>
      if c = '.' ∨ c = ',' then
        let d2 := r2.takeWhile Char.isDigit
        if d2 = [] then Option.none
        else match searchTail reqSpace (r2.drop d2.length) with
          | some u => some (d1 ++ c :: d2, u)
          | Option.none => Option.none
      else Option.none
    | [] => Option.none
  match viaA with
  | some res => some res
  | Option.none =>
    match searchTail reqSpace r1 with
    | some u => some (d1, u)
    | Option.none => Option.none

/-- re.search: the match at the leftmost position where one exists. -/
def pySearch (reqSpace : Bool) : List Char → Option (List Char × List Char)
  | [] => Option.none
  | c :: rest =>
    match searchAt reqSpace (c :: rest) with
    | some res => some res
    | Option.none => pySearch reqSpace rest

def stripLeadingZeros (ds : List Char) : List Char :=
  match ds.dropWhile (fun c => c = '0') with
  | [] => ['0']
  | r => r

def stripTrailingZeros (ds : List Char) : List Char :=
  (ds.reverse.dropWhile (fun c => c = '0')).reverse

/-- Embeds _normalize_number_str on the digit[.,]digit shapes the search
group produces: the comma becomes a period; an all-zero fraction is dropped
and the integer part loses leading zeros (str(int(f))); otherwise the float
repr of a short decimal is the decimal with trailing fraction zeros
removed. float() never fails on these shapes and the 1e-12 integrality
tolerance is exact zero on them. -/
def normNumberStr (g : List Char) : List Char :=
  let s := g.map (fun c => if c = ',' then '.' else c)
  let ip := s.takeWhile (fun c => c ≠ '.')
  match s.drop ip.length with
  | [] => stripLeadingZeros ip
  | _ :: fp =>
    let fp2 := stripTrailingZeros fp
    if fp2 = [] then stripLeadingZeros ip
    else stripLeadingZeros ip ++ '.' :: fp2

/-- The final unit validation chain of normalize_content. -/
def fixUnit (u : String) : String :=
  if u = "GR" ∨ u = "KG" ∨ u = "ML" ∨ u = "L" then u
  else if u = "G" ∨ u = "GRAM" ∨ u = "GRAMS" then "GR"
  else if u = "K" ∨ u = "KILO" ∨ u = "KILOS" then "KG"
  else if u = "LTR" ∨ u = "LITRE" ∨ u = "LITER" then "L"
  else u

/-- The eleven re.sub passes of normalize_content, in source order. -/
def contentSubs (s : String) : String :=
  pySubUnit "L" "L" false
    (pySubUnit "LITER" "L" false
      (pySubUnit "LITRE" "L" false
        (pySubUnit "LTR" "L" false
          (pySubUnit "ML" "ML" false
            (pySubUnit "KG" "KG" false
              (pySubUnit "GR" "GR" false
                (pySubUnit "GRAMS" "GR" false
                  (pySubUnit "GRAM" "GR" false
                    (pySubUnit "K" "KG" true
                      (pySubUnit "G" "GR" true s))))))))))

/-- Embeds fields/normalization.py normalize_content. -/
def normalize_content (value : Option String) : Option String :=
  match value with
  | Option.none => Option.none
  | some v =>
    let s := pyStrip v
    if s = "" then Option.none else
    let up := contentSubs (pyStrip (pyUpper s))
    match pySearch true up.data with
    | some (g, u) =>
      some (String.mk (normNumberStr g) ++ " " ++ fixUnit (String.mk u))
    | Option.none =>
      match pySearch false up.data with
      | some (g, u) =>
        some (String.mk (normNumberStr g) ++ " " ++ fixUnit (String.mk u))
      | Option.none => some up

/-- Split a character list on single spaces. -/
def splitOnSpaceAux : List Char → List Char → List (List Char)
  | acc, [] => [acc.reverse]
  | acc, c :: rest =>
    if c = ' ' then acc.reverse :: splitOnSpaceAux [] rest
    else splitOnSpaceAux (c :: acc) rest

/-- The shape the spec asserts for every output: "<number> <UNIT>" with
exactly one space and UNIT in the allowed set. This definition follows the
spec wording, to be compared with the embedded code. -/
def contentShape (s : String) : Bool :=
  match splitOnSpaceAux [] s.data with
  | [n, u] => !n.isEmpty &&
      (u = "GR".data || u = "KG".data || u = "ML".data || u = "L".data)
  | _ => false

theorem char_ofNat_toNat (n : Nat) (h : n.isValidChar) : (Char.ofNat n).toNat = n := by
  unfold Char.ofNat Char.ofNatAux
  simp [Char.toNat, h, UInt32.toNat, BitVec.ofNatLt]

theorem toUpper_not_lower (c : Char) : (c.toUpper).isLower = false := by
  simp only [Char.toUpper, Char.isLower]
  split
  · next hl =>
    simp only [ge_iff_le, Bool.and_eq_true, decide_eq_true_eq] at hl
    have h1 : 97 ≤ c.toNat := hl.1
    have h2 : c.toNat ≤ 122 := hl.2
    have hvalid : Nat.isValidChar (c.toNat - 32) := by
      left
      omega
    have hofnat : (Char.ofNat (c.toNat - 32)).toNat = c.toNat - 32 :=
      char_ofNat_toNat _ hvalid
    simp only [Bool.and_eq_false_iff]
    left
    simp only [ge_iff_le, decide_eq_false_iff_not]
    intro hcontra
    have hn : (97 : Nat) ≤ (Char.ofNat (c.toNat - 32)).toNat := hcontra
    omega
  · next hl =>
    simp only [ge_iff_le, Bool.and_eq_true, decide_eq_true_eq] at hl
    simp only [Bool.and_eq_false_iff, ge_iff_le, decide_eq_false_iff_not]
    by_cases h97 : (97 : UInt32) ≤ c.val
    · right
      intro h122
      exact hl ⟨h97, h122⟩
    · left
      exact h97

/-- Characters of a field produced by the splitting loop come from the
accumulator or the remaining input. -/
theorem splitAux_chars (fuel : Nat) :
    ∀ (acc cs : List Char) (t : List Char), t ∈ splitAux fuel acc cs →
      ∀ c ∈ t, c ∈ acc ∨ c ∈ cs := by
  induction fuel with
  | zero =>
    intro acc cs t ht c hc
    simp only [splitAux, List.mem_singleton] at ht
    subst ht
    exact Or.inl (List.mem_reverse.mp hc)
  | succ fuel ih =>
    intro acc cs t ht c hc
    match cs with
    | [] =>
      simp only [splitAux, List.mem_singleton] at ht
      subst ht
      exact Or.inl (List.mem_reverse.mp hc)
    | c0 :: rest =>
      simp only [splitAux] at ht
      cases hm : sepMatchLen (c0 :: rest) with
      | some n =>
        rw [hm] at ht
        rcases List.mem_cons.mp ht with h | h
        · subst h
          exact Or.inl (List.mem_reverse.mp hc)
        · rcases ih [] _ t h c hc with h2 | h2
          · exact absurd h2 (List.not_mem_nil c)
          · exact Or.inr (List.mem_of_mem_drop h2)
      | none =>
        rw [hm] at ht
        rcases ih (c0 :: acc) rest t ht c hc with h2 | h2
        · rcases List.mem_cons.mp h2 with h3 | h3
          · exact Or.inr (h3 ▸ List.mem_cons_self c0 rest)
          · exact Or.inl h3
        · exact Or.inr (List.mem_cons_of_mem c0 h2)

/-- Characters survive pyStrip. -/
theorem pyStrip_chars (s : String) (c : Char) (h : c ∈ (pyStrip s).data) :
    c ∈ s.data := by
  simp only [pyStrip] at h
  have h1 : c ∈ (s.data.dropWhile isPySpace).reverse.dropWhile isPySpace := by
    simpa using List.mem_reverse.mp h
  have h2 : c ∈ (s.data.dropWhile isPySpace).reverse :=
    List.Sublist.mem h1 (List.dropWhile_sublist isPySpace)
  exact List.Sublist.mem (List.mem_reverse.mp h2) (List.dropWhile_sublist isPySpace)

/-- Characters of any cleaned, stripped part come from the input string. -/
theorem langParts_chars (s : String) (t : String) (ht : t ∈ langParts s)
    (c : Char) (hc : c ∈ t.data) : c ∈ s.data := by
  simp only [langParts] at ht
  rcases List.mem_filterMap.mp ht with ⟨p, hp, hpt⟩
  have hpt2 : pyStrip p = t := by
    by_cases hcond : p ≠ "" ∧ pyStrip p ≠ ""
    · rw [if_pos hcond] at hpt
      exact Option.some.inj hpt
    · rw [if_neg hcond] at hpt
      exact absurd hpt (Option.noConfusion)
  have hcp : c ∈ p.data := pyStrip_chars p c (hpt2 ▸ hc)
  simp only [pySplitLangs, List.mem_map] at hp
  rcases hp with ⟨tl, htl, rfl⟩
  rcases splitAux_chars _ [] s.data tl htl c hcp with h | h
  · exact absurd h (List.not_mem_nil c)
  · exact h

/-- The seen-set fold only accumulates elements of the accumulator or the
input. -/
theorem dedupFoldl_mem (x : String) (l : List String) :
    ∀ acc, x ∈ l.foldl (fun acc p => if p ∈ acc then acc else acc ++ [p]) acc →
      x ∈ acc ∨ x ∈ l := by
  induction l with
  | nil =>
    intro acc h2
    exact Or.inl h2
  | cons p rest ih =>
    intro acc h2
    simp only [List.foldl_cons] at h2
    rcases ih _ h2 with h3 | h3
    · by_cases hmem : p ∈ acc
      · rw [if_pos hmem] at h3
        exact Or.inl h3
      · rw [if_neg hmem] at h3
        rcases List.mem_append.mp h3 with h4 | h4
        · exact Or.inl h4
        · exact Or.inr (List.mem_singleton.mp h4 ▸ List.mem_cons_self p rest)
    · exact Or.inr (List.mem_cons_of_mem p h3)

/-- dedupFirst only keeps elements of its input. -/
theorem dedupFirst_subset (l : List String) (x : String)
    (h : x ∈ dedupFirst l) : x ∈ l := by
  rcases dedupFoldl_mem x l [] h with h2 | h2
  · exact absurd h2 (List.not_mem_nil x)
  · exact h2

/-- Every character of a slash-join is a slash or comes from a token. -/
theorem joinSlash_chars (l : List String) (c : Char)
    (h : c ∈ (joinSlash l).data) : c = '/' ∨ ∃ t ∈ l, c ∈ t.data := by
  induction l with
  | nil => exact absurd h (List.not_mem_nil c)
  | cons t rest ih =>
    match rest with
    | [] =>
      right
      exact ⟨t, List.mem_singleton_self t, h⟩
    | r :: rest2 =>
      have hd : (joinSlash (t :: r :: rest2)).data
          = (t.data ++ ['/']) ++ (joinSlash (r :: rest2)).data := rfl
      rw [hd] at h
      rcases List.mem_append.mp h with h2 | h2
      · rcases List.mem_append.mp h2 with h3 | h3
        · exact Or.inr ⟨t, List.mem_cons_self t _, h3⟩
        · exact Or.inl (List.mem_singleton.mp h3)
      · rcases ih h2 with h4 | ⟨u, hu, hcu⟩
        · exact Or.inl h4
        · exact Or.inr ⟨u, List.mem_cons_of_mem t hu, hcu⟩

/-- Every character of every de-duplicated token is the uppercase image of
an input character, hence not lowercase. -/
theorem langUniq_not_lower (s : String) (t : String) (ht : t ∈ langUniq s)
    (c : Char) (hc : c ∈ t.data) : c.isLower = false := by
  have h1 : t ∈ langParts (pyUpper (pyStrip s)) := dedupFirst_subset _ t ht
  have h2 : c ∈ (pyUpper (pyStrip s)).data := langParts_chars _ t h1 c hc
  simp only [pyUpper] at h2
  rcases List.mem_map.mp h2 with ⟨c0, _, rfl⟩
  exact toUpper_not_lower c0

/-- The empty string yields no tokens. -/
theorem langUniq_empty : langUniq "" = [] := by decide

/-- C10 helper: unfolding normalize_languages on a some value. -/
theorem normalize_languages_some (md5seed : String → Nat)
    (sh : Nat → List String → List String) (v : String) :
    normalize_languages md5seed sh (some v) =
      if pyStrip v = "" then Option.none
      else if langParts (pyUpper (pyStrip v)) = [] then Option.none
      else if langUniq v = [] then Option.none
      else if (langUniq v).length = 1 then some ((langUniq v).headD "")
      else some (joinSlash (sh (md5seed (joinSlash (langUniq v))) (langUniq v))) :=
  rfl

/-- C10 -/
theorem C10_normalize_languages_deterministic
    (md5seed : String → Nat) (sh : Nat → List String → List String)
    (hsh : ∀ n l, List.Perm (sh n l) l) (v1 v2 : Option String) (hv : v1 = v2) :
    normalize_languages md5seed sh v1 = normalize_languages md5seed sh v2 ∧
    (∀ s t, v1 = some s → langUniq s = [t] →
      normalize_languages md5seed sh v1 = some t) ∧
    (∀ s out, v1 = some s → normalize_languages md5seed sh v1 = some out →
      (∃ toks : List String, List.Perm toks (langUniq s) ∧ toks ≠ [] ∧
        out = joinSlash toks) ∧
      (∀ c ∈ out.data, c.isLower = false)) := by
  subst hv
  refine ⟨rfl, ?_, ?_⟩
  · rintro s t rfl h
    have hs : pyStrip s ≠ "" := by
      intro he
      have h0 : langUniq s = [] := by
        unfold langUniq
        rw [he]
        decide
      rw [h0] at h
      exact List.noConfusion h
    rw [normalize_languages_some, if_neg hs]
    have hparts : langParts (pyUpper (pyStrip s)) ≠ [] := by
      intro he
      unfold langUniq at h
      rw [he] at h
      simp [dedupFirst] at h
    have hne : langUniq s ≠ [] := by
      rw [h]
      exact List.cons_ne_nil t []
    have hlen : (langUniq s).length = 1 := by
      rw [h]
      rfl
    rw [if_neg hparts, if_neg hne, if_pos hlen, h]
    rfl
  · rintro s out rfl hout
    rw [normalize_languages_some] at hout
    by_cases hs : pyStrip s = ""
    · rw [if_pos hs] at hout
      simp at hout
    rw [if_neg hs] at hout
    by_cases hp : langParts (pyUpper (pyStrip s)) = []
    · rw [if_pos hp] at hout
      simp at hout
    rw [if_neg hp] at hout
    by_cases hu : langUniq s = []
    · rw [if_pos hu] at hout
      simp at hout
    rw [if_neg hu] at hout
    by_cases hl : (langUniq s).length = 1
    · rw [if_pos hl] at hout
      rcases List.length_eq_one.mp hl with ⟨x, hx⟩
      have hout2 : out = x := by
        rw [hx] at hout
        exact (Option.some.inj hout).symm
      constructor
      · refine ⟨langUniq s, List.Perm.refl _, hu, ?_⟩
        rw [hx, hout2]
        rfl
      · intro c hc
        apply langUniq_not_lower s x _ c (hout2 ▸ hc)
        rw [hx]
        exact List.mem_singleton_self x
    · rw [if_neg hl] at hout
      have hout2 : out = joinSlash (sh (md5seed (joinSlash (langUniq s))) (langUniq s)) :=
        (Option.some.inj hout).symm
      have hperm : List.Perm (sh (md5seed (joinSlash (langUniq s))) (langUniq s))
          (langUniq s) := hsh _ _
      constructor
      · refine ⟨sh (md5seed (joinSlash (langUniq s))) (langUniq s), hperm, ?_, hout2⟩
        intro he
        rw [he] at hperm
        exact hu hperm.nil_eq.symm
      · intro c hc
        rw [hout2] at hc
        rcases joinSlash_chars _ c hc with h | ⟨t, ht, hct⟩
        · rw [h]
          decide
        · exact langUniq_not_lower s t (hperm.mem_iff.mp ht) c hct

/-- C10 witness -/
theorem C10_normalize_languages_deterministic_witness :
    normalize_languages (fun _ => 0) (fun _ l => l.reverse) (some "DE,FR,DE") = some "FR/DE" ∧
    (∀ c ∈ ("FR/DE" : String).data, c.isLower = false) := by
  have heval : normalize_languages (fun _ => 0) (fun _ l => l.reverse) (some "DE,FR,DE")
      = some "FR/DE" := by decide
  have h := C10_normalize_languages_deterministic (fun _ => 0) (fun _ l => l.reverse)
    (fun n l => List.reverse_perm l) (some "DE,FR,DE") (some "DE,FR,DE") rfl
  exact ⟨heval, (h.2.2 "DE,FR,DE" "FR/DE" rfl heval).2⟩

/-- C5 counterexample: "ABC" is a non-absent, non-empty input, yet
normalize_content returns it unchanged, not in the "<number> <UNIT>" form
with UNIT in the allowed set; "5 OZ" likewise passes an unrecognized unit
through. -/
theorem C5_counterexample_passthrough :
    normalize_content (some "ABC") = some "ABC" ∧ contentShape "ABC" = false ∧
    normalize_content (some "5 OZ") = some "5 OZ" ∧
    contentShape "5 OZ" = false := by
  refine ⟨?_, ?_, ?_, ?_⟩ <;> decide

/-- C5 (amended): the four documented conversions hold; absent and blank
inputs give none; whenever the searched pattern matches after the
substitution passes, the output is the normalized number, one space and the
validated unit; and when no pattern matches at all the substituted
upper-case text is returned as-is (so outputs need not have the canonical
form for arbitrary inputs). -/
theorem C5_normalize_content_amended :
    (normalize_content (some "110G") = some "110 GR" ∧
     normalize_content (some "2K") = some "2 KG" ∧
     normalize_content (some "1,5l") = some "1.5 L" ∧
     normalize_content (some "750ml") = some "750 ML" ∧
     contentShape "110 GR" = true ∧ contentShape "2 KG" = true ∧
     contentShape "1.5 L" = true ∧ contentShape "750 ML" = true ∧
     normalize_content Option.none = Option.none ∧
     normalize_content (some " ") = Option.none) ∧
    (∀ v g u, pyStrip v ≠ "" →
      pySearch true (contentSubs (pyStrip (pyUpper (pyStrip v)))).data = some (g, u) →
      normalize_content (some v)
        = some (String.mk (normNumberStr g) ++ " " ++ fixUnit (String.mk u))) ∧
    (∀ v, pyStrip v ≠ "" →
      pySearch true (contentSubs (pyStrip (pyUpper (pyStrip v)))).data = Option.none →
      pySearch false (contentSubs (pyStrip (pyUpper (pyStrip v)))).data = Option.none →
      normalize_content (some v) = some (contentSubs (pyStrip (pyUpper (pyStrip v))))) := by
  refine ⟨⟨?_, ?_, ?_, ?_, ?_, ?_, ?_, ?_, ?_, ?_⟩, ?_, ?_⟩
  · decide
  · decide
  · decide
  · decide
  · decide
  · decide
  · decide
  · decide
  · decide
  · decide
  · intro v g u hv hsearch
    simp only [normalize_content]
    rw [if_neg hv, hsearch]
  · intro v hv h1 h2
    simp only [normalize_content]
    rw [if_neg hv, h1, h2]

/-- C5 witness: the amended theorem instantiated at concrete inputs, with
its hypotheses discharged by evaluation. -/
theorem C5_normalize_content_amended_witness :
    pyStrip "ABC" ≠ "" ∧
    normalize_content (some "ABC")
      = some (contentSubs (pyStrip (pyUpper (pyStrip "ABC")))) :=
  ⟨by decide,
    C5_normalize_content_amended.2.2 "ABC" (by decide) (by decide) (by decide)⟩

end Normalization
